import Mathlib

set_option maxRecDepth 100000

/-!
# Verification of the poker engine (`poker_game`)

Shallow embedding of the core of the repository:
`poker_game/core/cards.py`, `rules.py`, `player.py`, `game_engine.py`.

Python `int` is modelled as `Int`; Python lists as `List`; Python's stable
`sorted` as a structurally recursive stable insertion sort (`pySort`);
`itertools.combinations` as `combinations`; `collections.Counter` items as
first-occurrence-ordered `(key, count)` pairs.
-/

/-- Python's stable insertion of `a` into a list sorted by boolean `le`:
`a` is placed before the first element `b` with `le a b` (so among equal
keys, the inserted element — which originally came first — stays first). -/
def pyInsert (le : α → α → Bool) (a : α) : List α → List α
  | [] => [a]
  | b :: bs => if le a b then a :: b :: bs else b :: pyInsert le a bs

/-- Stable sort by boolean `le`, modelling Python's `sorted(l, key=..)`
(with `le` encoding the key comparison; `reverse=True` is encoded by
flipping the key order inside `le`). -/
def pySort (le : α → α → Bool) : List α → List α
  | [] => []
  | a :: as => pyInsert le a (pySort le as)

/-- Helper for `pyUnique`: keep the elements not already seen. -/
def pyUniqueGo [DecidableEq α] (seen : List α) : List α → List α
  | [] => []
  | a :: as => if a ∈ seen then pyUniqueGo seen as else a :: pyUniqueGo (a :: seen) as

/-- First-occurrence deduplication, modelling iteration order of a Python
`set`/`Counter` built from a list (insertion order of first occurrences). -/
def pyUnique [DecidableEq α] (l : List α) : List α := pyUniqueGo [] l

/-- Python set equality `set(a) == set(b)`: mutual membership. -/
def sameSet [DecidableEq α] (a b : List α) : Bool :=
  a.all (b.contains ·) && b.all (a.contains ·)

/-- `itertools.combinations(l, n)`: all length-`n` subsequences of `l`,
in the order itertools emits them (lexicographic by index). -/
def combinations : Nat → List α → List (List α)
  | 0, _ => [[]]
  | _ + 1, [] => []
  | n + 1, a :: as => (combinations n as).map (a :: ·) ++ combinations (n + 1) as

/-! ## cards.py -/

/-- `SUITS = ['♥', '♦', '♣', '♠']` -/
def SUITS : List String := ["♥", "♦", "♣", "♠"]

/-- `RANKS = ['2', ..., 'A']` -/
def RANKS : List String :=
  ["2", "3", "4", "5", "6", "7", "8", "9", "T", "J", "Q", "K", "A"]

/-- `RANK_VALUES = {rank: i for i, rank in enumerate(RANKS, 2)}`.
A key outside `RANKS` raises `KeyError` in Python; modelled as `0`
(never consulted for valid cards). -/
def RANK_VALUES : String → Int
  | "2" => 2 | "3" => 3 | "4" => 4 | "5" => 5 | "6" => 6 | "7" => 7
  | "8" => 8 | "9" => 9 | "T" => 10 | "J" => 11 | "Q" => 12 | "K" => 13
  | "A" => 14
  | _ => 0

/-- `class Card`: a rank string and a suit string (constructor validation
is captured by the `validCard` predicate below). -/
structure Card where
  rank : String
  suit : String
deriving DecidableEq, Repr

/-- `Card.__init__` validation: `rank in RANKS` and `suit in SUITS`. -/
def validCard (c : Card) : Prop := c.rank ∈ RANKS ∧ c.suit ∈ SUITS

instance (c : Card) : Decidable (validCard c) := by
  unfold validCard; infer_instance

/-- `Card.rank_value` -/
def Card.rank_value (c : Card) : Int := RANK_VALUES c.rank

/-- `Card.__eq__`: `self.rank == other.rank and self.suit == other.suit`. -/
def cardEq (a b : Card) : Bool := a.rank == b.rank && a.suit == b.suit

/-- `Card.__lt__`: `self.rank_value() < other.rank_value()`. -/
def cardLt (a b : Card) : Bool := a.rank_value < b.rank_value

/-- `sorted(cards, key=lambda c: c.rank_value(), reverse=True)` -/
def sortByRankDesc (cards : List Card) : List Card :=
  pySort (fun a b => b.rank_value ≤ a.rank_value) cards

namespace HandEvaluator

/-- `HandEvaluator.HAND_RANKINGS` (unknown key modelled as `0`). -/
def HAND_RANKINGS : String → Int
  | "HIGH_CARD" => 1
  | "ONE_PAIR" => 2
  | "TWO_PAIR" => 3
  | "THREE_OF_A_KIND" => 4
  | "STRAIGHT" => 5
  | "FLUSH" => 6
  | "FULL_HOUSE" => 7
  | "FOUR_OF_A_KIND" => 8
  | "STRAIGHT_FLUSH" => 9
  | "ROYAL_FLUSH" => 10
  | _ => 0

/-- `Counter(ranks)` followed by `.items()`: `(rank, count)` pairs in
first-occurrence order. -/
def counterItems (ranks : List Int) : List (Int × Int) :=
  (pyUnique ranks).map (fun r => (r, (ranks.count r : Int)))

/-- `sorted(rank_counts.items(), key=lambda item: (item[1], item[0]), reverse=True)` -/
def sortedRankCounts (ranks : List Int) : List (Int × Int) :=
  pySort
    (fun a b => b.2 < a.2 || (b.2 == a.2 && b.1 ≤ a.1))
    (counterItems ranks)

/-- The `for i in range(len(u) - 4)` scan inside `_calculate_hand_details`:
find the first window of 5 ranks in the descending unique list with
`u[i] - u[i+4] == 4`; returns `u[i:i+5]` (the straight's kickers, whose
head is `straight_high_card_rank`). -/
def straightScan : List Int → Option (List Int)
  | [] => none
  | a :: rest =>
    match rest.get? 3 with
    | some e => if a - e == 4 then some ((a :: rest).take 5) else straightScan rest
    | none => none

/-- The straight-detection block of `_calculate_hand_details` operating on
the rank list: `none` if no straight, otherwise
`some (straight_high_card_rank, straight_kickers)`.
The wheel pattern `{14, 5, 4, 3, 2}` is checked first, then the general
consecutive scan. -/
def straightInfo (ranks : List Int) : Option (Int × List Int) :=
  let u := pySort (fun a b => b ≤ a) (pyUnique ranks)
  if u.length ≥ 5 then
    if sameSet (u.take 5) [14, 5, 4, 3, 2] then
      some (5, [5, 4, 3, 2, 1])
    else
      match straightScan u with
      | some w => some (w.headD 0, w)
      | none => none
  else none

/-- Core of `HandEvaluator._calculate_hand_details`, as a function of the
rank-value list and the `is_flush` flag (the Python body uses `suits` only
through `is_flush`).  Returns `(hand name, hand rank, kickers)`.
The unset Python locals `straight_high_card_rank` / `straight_kickers`
(read only when `is_straight`) are carried in the `straightInfo` option. -/
def calcCore (ranks : List Int) (is_flush : Bool) : String × Int × List Int :=
  let sorted_rank_counts := sortedRankCounts ranks
  let u := pySort (fun a b => b ≤ a) (pyUnique ranks)
  let st := straightInfo ranks
  let is_straight := st.isSome
  let straight_high_card_rank := ((st.getD (0, [])).1 : Int)
  let straight_kickers := (st.getD (0, [])).2
  if is_straight && is_flush then
    if straight_high_card_rank == 14 && u.headD 0 == 14 then
      if sameSet ranks [14, 13, 12, 11, 10] then
        ("ROYAL_FLUSH", HAND_RANKINGS "ROYAL_FLUSH", straight_kickers)
      else
        ("STRAIGHT_FLUSH", HAND_RANKINGS "STRAIGHT_FLUSH", straight_kickers)
    else
      ("STRAIGHT_FLUSH", HAND_RANKINGS "STRAIGHT_FLUSH", straight_kickers)
  else if (sorted_rank_counts.headD (0, 0)).2 == 4 then
    let four_kind_rank := (sorted_rank_counts.headD (0, 0)).1
    ("FOUR_OF_A_KIND", HAND_RANKINGS "FOUR_OF_A_KIND",
      [four_kind_rank, (ranks.filter (· ≠ four_kind_rank)).headD 0])
  else if (sorted_rank_counts.headD (0, 0)).2 == 3 &&
      ((sorted_rank_counts.get? 1).getD (0, 0)).2 == 2 then
    ("FULL_HOUSE", HAND_RANKINGS "FULL_HOUSE",
      [(sorted_rank_counts.headD (0, 0)).1, ((sorted_rank_counts.get? 1).getD (0, 0)).1])
  else if is_flush then
    ("FLUSH", HAND_RANKINGS "FLUSH", pySort (fun a b => b ≤ a) ranks)
  else if is_straight then
    ("STRAIGHT", HAND_RANKINGS "STRAIGHT", straight_kickers)
  else if (sorted_rank_counts.headD (0, 0)).2 == 3 then
    let three_kind_rank := (sorted_rank_counts.headD (0, 0)).1
    ("THREE_OF_A_KIND", HAND_RANKINGS "THREE_OF_A_KIND",
      three_kind_rank :: (pySort (fun a b => b ≤ a) (ranks.filter (· ≠ three_kind_rank))).take 2)
  else if (sorted_rank_counts.headD (0, 0)).2 == 2 &&
      ((sorted_rank_counts.get? 1).getD (0, 0)).2 == 2 then
    let high_pair_rank := (sorted_rank_counts.headD (0, 0)).1
    let low_pair_rank := ((sorted_rank_counts.get? 1).getD (0, 0)).1
    ("TWO_PAIR", HAND_RANKINGS "TWO_PAIR",
      [high_pair_rank, low_pair_rank,
        (ranks.filter (fun r => r ≠ high_pair_rank && r ≠ low_pair_rank)).headD 0])
  else if (sorted_rank_counts.headD (0, 0)).2 == 2 then
    let pair_rank := (sorted_rank_counts.headD (0, 0)).1
    ("ONE_PAIR", HAND_RANKINGS "ONE_PAIR",
      pair_rank :: (pySort (fun a b => b ≤ a) (ranks.filter (· ≠ pair_rank))).take 3)
  else
    ("HIGH_CARD", HAND_RANKINGS "HIGH_CARD", pySort (fun a b => b ≤ a) ranks)

/-- `HandEvaluator._calculate_hand_details(five_cards)` (the argument is
assumed sorted by rank descending, as the Python docstring requires;
`is_flush = len(set(suits)) == 1`). -/
def calculate_hand_details (five_cards : List Card) : String × Int × List Int :=
  calcCore (five_cards.map Card.rank_value)
    ((pyUnique (five_cards.map Card.suit)).length == 1)

/-- The kicker tie-break loop inside `evaluate_hand`: walk the candidate's
kickers against the incumbent's; the first strict difference decides.
Returns `true` iff the candidate replaces the incumbent.  (Python would
raise `IndexError` were the candidate list longer than the incumbent's;
that case is unreachable because equal hand ranks have equal kicker
lengths, and is modelled as `false`.) -/
def kickersBeat : List Int → List Int → Bool
  | [], _ => false
  | _ :: _, [] => false
  | n :: ns, o :: os => if n > o then true else if n < o then false else kickersBeat ns os

/-- The result quadruple of `evaluate_hand`:
`(hand name, best five cards, hand rank, kickers)`. -/
abbrev HandResult := String × List Card × Int × List Int

/-- One step of the `for combo in combinations(all_cards, 5)` loop in
`evaluate_hand`. -/
def evalStep (best : HandResult) (combo : List Card) : HandResult :=
  let current_cards := sortByRankDesc combo
  let d := calculate_hand_details current_cards
  if d.2.1 > best.2.2.1 then (d.1, current_cards, d.2.1, d.2.2)
  else if d.2.1 == best.2.2.1 && kickersBeat d.2.2 best.2.2.2 then
    (d.1, current_cards, d.2.1, d.2.2)
  else best

/-- `HandEvaluator.evaluate_hand(hole_cards, community_cards)`. -/
def evaluate_hand (hole_cards community_cards : List Card) : HandResult :=
  let all_cards := sortByRankDesc (hole_cards ++ community_cards)
  if all_cards.length < 5 then
    if all_cards.isEmpty then ("NO_CARDS", [], 0, [])
    else
      let best_five := all_cards.take 5
      ("HIGH_CARD", best_five, HAND_RANKINGS "HIGH_CARD", best_five.map Card.rank_value)
  else
    let best_five := all_cards.take 5
    (combinations 5 all_cards).foldl evalStep
      ("HIGH_CARD", best_five, 0, best_five.map Card.rank_value)

/-- The `for k1, k2 in zip(kickers1, kickers2)` comparison loop in
`compare_hands` (zip stops at the shorter list; all equal ⇒ `0`). -/
def zipCompareKickers : List Int → List Int → Int
  | k1 :: ks1, k2 :: ks2 =>
    if k1 > k2 then 1 else if k1 < k2 then -1 else zipCompareKickers ks1 ks2
  | _, _ => 0

/-- `HandEvaluator.compare_hands(hand1_details, hand2_details)`. -/
def compare_hands (hand1_details hand2_details : HandResult) : Int :=
  let rank1 := hand1_details.2.2.1
  let rank2 := hand2_details.2.2.1
  if rank1 > rank2 then 1
  else if rank1 < rank2 then -1
  else zipCompareKickers hand1_details.2.2.2 hand2_details.2.2.2

end HandEvaluator

/-! ## player.py -/

/-- `class Player` (the abstract base; `make_decision` is external and
modelled by scripts, see the betting-round embedding). -/
structure Player where
  player_id : String
  stack : Int
  hole_cards : List Card
  current_bet : Int
  is_folded : Bool
  is_all_in : Bool
deriving DecidableEq, Repr

/-- A throwaway player used only as the default for list indexing that the
Python code guarantees is in range. -/
def defaultPlayer : Player := ⟨"", 0, [], 0, false, false⟩

/-- `Player.place_bet(amount)`: moves `min(amount, stack)` from the stack
to `current_bet`, marks all-in at zero stack, and returns the amount moved
(second component). -/
def Player.place_bet (p : Player) (amount : Int) : Player × Int :=
  let bet_amount := min amount p.stack
  let stack := p.stack - bet_amount
  ({ p with stack := stack,
            current_bet := p.current_bet + bet_amount,
            is_all_in := if stack == 0 then true else p.is_all_in },
    bet_amount)

/-- `Player.fold()` -/
def Player.fold (p : Player) : Player :=
  { p with is_folded := true, hole_cards := [] }

/-! ## game_state.py -/

/-- `@dataclass GameState` (the fields used by the core; the
`small_blind_player_id` / `big_blind_player_id` attributes are created
dynamically by `GameEngine._post_blinds` and modelled as options). -/
structure GameState where
  players : List Player
  dealer_button_position : Nat
  current_player_turn_index : Nat
  community_cards : List Card
  pot_size : Int
  current_round_pot : Int
  current_bet_to_match : Int
  last_raiser : Option String
  last_raise_amount : Int
  game_phase : String
  small_blind : Int
  big_blind : Int
  min_bet : Int
  round_number : Int
  is_game_over : Bool
  small_blind_player_id : Option String
  big_blind_player_id : Option String
deriving DecidableEq, Repr

/-! ## rules.py -/

/-- One entry of the list returned by
`TexasHoldemRules.determine_winners`. -/
structure WinnerResult where
  player_id : String
  amount_won : Int
  hand_name : String
  best_cards : List Card
deriving DecidableEq, Repr

/-- One entry of the `player_hands_details` dict built inside
`determine_winners` (in insertion order, which is the order of
`active_players`; player ids are unique by engine construction). -/
structure PlayerHandDetail where
  player_obj : Player
  hand_name : String
  best_cards : List Card
  rank_val : Int
  kickers : List Int
deriving Repr

namespace TexasHoldemRules

/-- Python list comparison (`<`) on integer lists, as used by
`sorted(..., key=lambda x: (x["rank_val"], x["kickers"]))`. -/
def pyListLt : List Int → List Int → Bool
  | [], [] => false
  | [], _ :: _ => true
  | _ :: _, [] => false
  | a :: as, b :: bs => if a < b then true else if a > b then false else pyListLt as bs

/-- Python tuple comparison on the sort key `(rank_val, kickers)`. -/
def rankKickersLt (x y : Int × List Int) : Bool :=
  x.1 < y.1 || (x.1 == y.1 && pyListLt x.2 y.2)

/-- The `player_hands_details` entry for one active player. -/
def playerDetail (gs : GameState) (p : Player) : PlayerHandDetail :=
  if p.hole_cards.isEmpty then ⟨p, "NO_HAND", [], -1, []⟩
  else
    let r := HandEvaluator.evaluate_hand p.hole_cards gs.community_cards
    ⟨p, r.1, r.2.1, r.2.2.1, r.2.2.2⟩

/-- The `details_tuple` of an entry, as passed to `compare_hands`. -/
def detailsTuple (d : PlayerHandDetail) : HandEvaluator.HandResult :=
  (d.hand_name, d.best_cards, d.rank_val, d.kickers)

/-- `winner_results[i] += 1` at one index (list length preserved). -/
def bumpAmount : List WinnerResult → Nat → List WinnerResult
  | [], _ => []
  | w :: ws, 0 => { w with amount_won := w.amount_won + 1 } :: ws
  | w :: ws, n + 1 => w :: bumpAmount ws n

/-- `for i in range(remainder): winner_results[i % len(winner_results)] += 1` -/
def distributeRemainder (l : List WinnerResult) (r : Nat) : List WinnerResult :=
  (List.range r).foldl (fun acc i => bumpAmount acc (i % acc.length)) l

/-- `TexasHoldemRules.determine_winners(game_state)`. -/
def determine_winners (gs : GameState) : List WinnerResult :=
  let active_players := gs.players.filter (fun p => !p.is_folded)
  match active_players with
  | [] => []
  | [winner] =>
    [⟨winner.player_id, gs.pot_size + gs.current_round_pot, " uncontested_pot", []⟩]
  | _ =>
    let player_hands_details := active_players.map (playerDetail gs)
    let sorted_players_by_hand :=
      pySort (fun a b => !(rankKickersLt (a.rank_val, a.kickers) (b.rank_val, b.kickers)))
        player_hands_details
    let best_hand_details_tuple :=
      detailsTuple (sorted_players_by_hand.headD ⟨defaultPlayer, "", [], 0, []⟩)
    let winners := sorted_players_by_hand.takeWhile
      (fun p => HandEvaluator.compare_hands (detailsTuple p) best_hand_details_tuple == 0)
    let total_pot_to_distribute := gs.pot_size + gs.current_round_pot
    let amount_per_winner :=
      if winners.isEmpty then 0 else Int.fdiv total_pot_to_distribute winners.length
    let winner_results := winners.map (fun w =>
      (⟨w.player_obj.player_id, amount_per_winner, w.hand_name, w.best_cards⟩ : WinnerResult))
    let remainder :=
      if winners.isEmpty then 0 else Int.fmod total_pot_to_distribute winners.length
    if remainder > 0 ∧ ¬ winner_results.isEmpty then
      distributeRemainder winner_results remainder.toNat
    else winner_results

/-- `TexasHoldemRules.get_betting_order(players, dealer_pos, phase)`. -/
def get_betting_order (players : List Player) (dealer_pos : Nat) (phase : String) :
    List Player :=
  let num_players := players.length
  if num_players == 0 then []
  else
    let active_players := players.filter (fun p => !p.is_folded && !p.is_all_in)
    if active_players.isEmpty then []
    else
      let eligible_to_act_with_indices :=
        (players.enum).filter (fun ip => !ip.2.is_folded && !ip.2.is_all_in)
      if eligible_to_act_with_indices.isEmpty then []
      else
        let start_index :=
          if phase == "pre-flop" then
            if num_players == 2 then dealer_pos
            else (dealer_pos + 3) % num_players
          else (dealer_pos + 1) % num_players
        let first_actor_index_in_eligible :=
          (List.range num_players).findSome? (fun i =>
            eligible_to_act_with_indices.findIdx?
              (fun ip => ip.1 == (start_index + i) % num_players))
        match first_actor_index_in_eligible with
        | none => []
        | some first =>
          (List.range eligible_to_act_with_indices.length).map (fun i =>
            (eligible_to_act_with_indices.getD
              ((first + i) % eligible_to_act_with_indices.length)
              (0, defaultPlayer)).2)

/-- The action set returned by `TexasHoldemRules.get_allowed_actions`:
each field records whether the corresponding dict key is present
(`raiseOpt` is the `"raise"` key, carrying
`(min_total_bet, max_total_bet)`; `bet` carries `(min, max)`). -/
structure AllowedActions where
  fold : Bool
  check : Bool
  call : Option Int
  bet : Option (Int × Int)
  raiseOpt : Option (Int × Int)
deriving DecidableEq, Repr

/-- `TexasHoldemRules.get_allowed_actions(player, game_state)`. -/
def get_allowed_actions (player : Player) (gs : GameState) : AllowedActions :=
  if player.is_all_in || player.stack == 0 then
    ⟨false, true, none, none, none⟩
  else
    let amount_to_call := gs.current_bet_to_match - player.current_bet
    if amount_to_call ≤ 0 then
      let actual_min_bet := max gs.big_blind gs.min_bet
      ⟨true, true, none,
        if player.stack > 0 then some (min actual_min_bet player.stack, player.stack)
        else none,
        none⟩
    else
      let callAmt := min amount_to_call player.stack
      if player.stack > amount_to_call then
        let min_raise_increment :=
          max gs.big_blind
            (if gs.last_raise_amount > 0 then gs.last_raise_amount else gs.big_blind)
        let standard_min_total_bet_for_raise :=
          gs.current_bet_to_match + min_raise_increment
        let player_max_total_bet_this_street := player.current_bet + player.stack
        if player_max_total_bet_this_street ≥ standard_min_total_bet_for_raise then
          ⟨true, false, some callAmt, none,
            some (standard_min_total_bet_for_raise, player_max_total_bet_this_street)⟩
        else if player_max_total_bet_this_street > gs.current_bet_to_match then
          ⟨true, false, some callAmt, none,
            some (player_max_total_bet_this_street, player_max_total_bet_this_street)⟩
        else
          ⟨true, false, some callAmt, none, none⟩
      else
        ⟨true, false, some callAmt, none, none⟩

end TexasHoldemRules

/-! ## events.py and config/settings.py -/

namespace Events

/-- `@dataclass Action` (field order as in the source; the name is
qualified because Mathlib already declares a global `Action`). -/
structure Action where
  type : String
  amount : Int
  player_id : String
deriving DecidableEq, Repr

end Events

/-- `settings.SMALL_BLIND` -/
def SMALL_BLIND : Int := 10

/-- `settings.BIG_BLIND` -/
def BIG_BLIND : Int := 20

/-- `settings.STARTING_STACK` -/
def STARTING_STACK : Int := 1000

/-! ## game_engine.py

Python `Player` objects are aliased between `game_state.players`,
`_active_round_players` and the betting order; the embedding keeps
`game_state.players` as the single store and represents the other lists
as indices into it. -/

namespace GameEngine

/-- The engine-owned state relevant to the claims: the game state plus
`_active_round_players` (as indices into `game_state.players`). -/
structure EngineSt where
  gs : GameState
  active_round_players : List Nat
deriving DecidableEq, Repr

/-- Lines 584–585 of `_run_betting_round`: fold `current_round_pot` into
`pot_size` at street close. -/
def collectRoundPot (gs : GameState) : GameState :=
  { gs with pot_size := gs.pot_size + gs.current_round_pot, current_round_pot := 0 }

/-- The `while players[pos].stack == 0: pos = (pos+1) % n; if pos == stop: return`
scans of `_post_blinds`, with fuel (`n` suffices; the Python loop cannot
cycle more than once). -/
def findActiveFrom (players : List Player) (pos stop : Nat) : Nat → Option Nat
  | 0 => none
  | fuel + 1 =>
    if (players.getD pos defaultPlayer).stack == 0 then
      let next := (pos + 1) % players.length
      if next == stop then none
      else findActiveFrom players next stop fuel
    else some pos

/-- Post one blind from the player at index `i`: `place_bet(min(blind, stack))`,
add the paid amount to `current_round_pot`. -/
def postOneBlind (gs : GameState) (i : Nat) (blind : Int) : GameState × Int :=
  let p := gs.players.getD i defaultPlayer
  let r := p.place_bet (min blind p.stack)
  ({ gs with players := gs.players.set i r.1,
             current_round_pot := gs.current_round_pot + r.2 }, r.2)

/-- `GameEngine._post_blinds` (events are display-only and omitted). -/
def postBlinds (st : EngineSt) : EngineSt :=
  let gs := st.gs
  if st.active_round_players.length < 2 then st
  else
    let players_in_game := gs.players
    let n := players_in_game.length
    match findActiveFrom players_in_game ((gs.dealer_button_position + 1) % n)
        gs.dealer_button_position n with
    | none => st
    | some sb_pos =>
      match findActiveFrom players_in_game ((sb_pos + 1) % n) sb_pos n with
      | none =>
        -- the heads-up special branch inside the big-blind scan
        if st.active_round_players.length == 2 then
          match st.active_round_players.findIdx? (fun i =>
              (players_in_game.getD i defaultPlayer).player_id ==
              (players_in_game.getD gs.dealer_button_position defaultPlayer).player_id) with
          | some dealer_active_idx =>
            let sb_i := st.active_round_players.getD dealer_active_idx 0
            let bb_i := st.active_round_players.getD
              ((dealer_active_idx + 1) % st.active_round_players.length) 0
            let r1 := postOneBlind gs sb_i SMALL_BLIND
            let sbid := some (gs.players.getD sb_i defaultPlayer).player_id
            let gs1 := { r1.1 with small_blind_player_id := sbid }
            let r2 := postOneBlind gs1 bb_i BIG_BLIND
            let gs2 := { r2.1 with
              big_blind_player_id := some (gs1.players.getD bb_i defaultPlayer).player_id,
              current_bet_to_match := gs.big_blind,
              last_raiser := some (gs1.players.getD bb_i defaultPlayer).player_id,
              last_raise_amount := gs.big_blind }
            { st with gs := gs2 }
          | none => st
        else st
      | some bb_pos =>
        let r1 := postOneBlind gs sb_pos gs.small_blind
        let sbid := some (gs.players.getD sb_pos defaultPlayer).player_id
        let gs1 := { r1.1 with small_blind_player_id := sbid }
        let r2 := postOneBlind gs1 bb_pos gs.big_blind
        let gs2 := { r2.1 with
          big_blind_player_id := some (gs1.players.getD bb_pos defaultPlayer).player_id,
          current_bet_to_match := gs.big_blind,
          last_raiser := some (gs1.players.getD bb_pos defaultPlayer).player_id,
          last_raise_amount := gs.big_blind,
          min_bet := gs.big_blind }
        { st with gs := gs2 }

/-- `action.type not in allowed`: key membership in the returned dict. -/
def actionTypeAllowed (allowed : TexasHoldemRules.AllowedActions) (t : String) : Bool :=
  if t == "fold" then allowed.fold
  else if t == "check" then allowed.check
  else if t == "call" then allowed.call.isSome
  else if t == "bet" then allowed.bet.isSome
  else if t == "raise" then allowed.raiseOpt.isSome
  else false

/-- The body of `_process_player_action` after the membership handling:
dispatch on the (possibly substituted) action type; ends with the
`player.stack == 0 and not player.is_all_in` fix-up. -/
def processDispatch (st : EngineSt) (pi : Nat) (action : Events.Action)
    (allowed : TexasHoldemRules.AllowedActions) : EngineSt × Bool × Events.Action :=
  let gs := st.gs
  let player := gs.players.getD pi defaultPlayer
  let amount_to_call_for_player := gs.current_bet_to_match - player.current_bet
  let gs2 :=
    if action.type == "fold" then
      { gs with players := gs.players.set pi player.fold }
    else if action.type == "check" then
      if amount_to_call_for_player > 0 then
        { gs with players := gs.players.set pi player.fold }
      else gs
    else if action.type == "call" then
      if amount_to_call_for_player ≤ 0 then gs
      else
        let call_amount := min player.stack amount_to_call_for_player
        let r := player.place_bet call_amount
        { gs with players := gs.players.set pi r.1,
                  current_round_pot := gs.current_round_pot + r.2 }
    else if action.type == "bet" then
      let min_bet := (allowed.bet.getD (gs.big_blind, player.stack)).1
      let max_bet := (allowed.bet.getD (gs.big_blind, player.stack)).2
      if ¬ (min_bet ≤ action.amount ∧ action.amount ≤ max_bet) then
        { gs with players := gs.players.set pi player.fold }
      else
        let r := player.place_bet action.amount
        { gs with players := gs.players.set pi r.1,
                  current_round_pot := gs.current_round_pot + r.2,
                  current_bet_to_match := r.1.current_bet,
                  last_raiser := some player.player_id,
                  last_raise_amount := action.amount,
                  min_bet := action.amount }
    else if action.type == "raise" then
      let min_total_raise :=
        (allowed.raiseOpt.getD (gs.current_bet_to_match + gs.big_blind,
          player.stack + player.current_bet)).1
      if ¬ (min_total_raise ≤ action.amount ∧
          action.amount ≤ player.stack + player.current_bet) then
        { gs with players := gs.players.set pi player.fold }
      else
        let amount_to_add_to_pot := action.amount - player.current_bet
        let amount_to_add_to_pot :=
          if amount_to_add_to_pot > player.stack then player.stack
          else amount_to_add_to_pot
        let r := player.place_bet amount_to_add_to_pot
        let size_of_this_raise := r.1.current_bet - gs.current_bet_to_match
        { gs with players := gs.players.set pi r.1,
                  current_round_pot := gs.current_round_pot + r.2,
                  current_bet_to_match := r.1.current_bet,
                  last_raiser := some player.player_id,
                  last_raise_amount := size_of_this_raise,
                  min_bet := size_of_this_raise }
    else gs
  let p3 := gs2.players.getD pi defaultPlayer
  let gs3 :=
    if p3.stack == 0 && !p3.is_all_in then
      { gs2 with players := gs2.players.set pi { p3 with is_all_in := true } }
    else gs2
  (⟨gs3, st.active_round_players⟩, true, action)

/-- `GameEngine._process_player_action(player, action, allowed)`.
Returns the updated engine state, the validity flag, and the action object
(Python mutates `action.type` / `action.amount` in place on the
bet→check and raise→call substitutions). -/
def processPlayerAction (st : EngineSt) (pi : Nat) (action : Events.Action)
    (allowed : TexasHoldemRules.AllowedActions) : EngineSt × Bool × Events.Action :=
  if actionTypeAllowed allowed action.type then
    processDispatch st pi action allowed
  else if action.type == "bet" && allowed.check then
    processDispatch st pi { action with type := "check" } allowed
  else if action.type == "raise" && allowed.call.isSome then
    processDispatch st pi
      { action with type := "call", amount := allowed.call.getD 0 } allowed
  else if allowed.fold then
    let pl2 := st.gs.players.set pi ((st.gs.players.getD pi defaultPlayer).fold)
    (⟨{ st.gs with players := pl2 }, st.active_round_players⟩, true, action)
  else (st, false, action)

/-- `TexasHoldemRules.get_betting_order`, kept as original player indices
(the Python list holds aliases of the `game_state.players` objects). -/
def get_betting_order_idx (players : List Player) (dealer_pos : Nat) (phase : String) :
    List Nat :=
  let num_players := players.length
  if num_players == 0 then []
  else
    let active_players := players.filter (fun p => !p.is_folded && !p.is_all_in)
    if active_players.isEmpty then []
    else
      let eligible_to_act_with_indices :=
        (players.enum).filter (fun ip => !ip.2.is_folded && !ip.2.is_all_in)
      if eligible_to_act_with_indices.isEmpty then []
      else
        let start_index :=
          if phase == "pre-flop" then
            if num_players == 2 then dealer_pos
            else (dealer_pos + 3) % num_players
          else (dealer_pos + 1) % num_players
        let first_actor_index_in_eligible :=
          (List.range num_players).findSome? (fun i =>
            eligible_to_act_with_indices.findIdx?
              (fun ip => ip.1 == (start_index + i) % num_players))
        match first_actor_index_in_eligible with
        | none => []
        | some first =>
          (List.range eligible_to_act_with_indices.length).map (fun i =>
            (eligible_to_act_with_indices.getD
              ((first + i) % eligible_to_act_with_indices.length)
              (0, defaultPlayer)).1)

/-- Exit used at every `break` of the betting loop: fold the street pot
into the main pot, then report whether more than one player remains. -/
def breakResult (engine : EngineSt) (trace : List String) :
    Option (EngineSt × Bool × List String) :=
  let gs2 := collectRoundPot engine.gs
  let non_folded := engine.active_round_players.filter
    (fun i => !(gs2.players.getD i defaultPlayer).is_folded)
  some (⟨gs2, engine.active_round_players⟩, decide (non_folded.length > 1), trace)

/-- The `while True` loop of `GameEngine._run_betting_round`, driven by a
script of actions (one per request to an action provider) and instrumented
with a trace of the seats asked to act.  `none` = out of fuel or out of
scripted actions (the Python loop would instead block asking for input). -/
def runBettingLoop (engine : EngineSt) (acting_order : List Nat)
    (current_player_index num_actions : Nat) (aggressor : Option String)
    (script : List Events.Action) (trace : List String) :
    Nat → Option (EngineSt × Bool × List String)
  | 0 => none
  | fuel + 1 =>
    let gs := engine.gs
    let non_folded := engine.active_round_players.filter
      (fun i => !(gs.players.getD i defaultPlayer).is_folded)
    if non_folded.length ≤ 1 then some (engine, false, trace)
    else if current_player_index ≥ acting_order.length then breakResult engine trace
    else
      let pi := acting_order.getD current_player_index 0
      let player := gs.players.getD pi defaultPlayer
      if player.is_folded || player.is_all_in then
        -- skip branch: advance the index, with the end-of-pass break checks
        let idx2 := current_player_index + 1
        if idx2 ≥ acting_order.length then
          let active_bettors := acting_order.filter (fun j =>
            let p := gs.players.getD j defaultPlayer
            !p.is_folded && !p.is_all_in &&
              decide (p.current_bet < gs.current_bet_to_match))
          if active_bettors.isEmpty &&
              (gs.last_raiser.isNone ||
                (decide (acting_order.length > 0) &&
                  ((gs.players.getD (acting_order.getD 0 0) defaultPlayer).player_id ==
                    gs.last_raiser.getD "") &&
                  decide (num_actions ≥ acting_order.length))) then
            breakResult engine trace
          else
            let eligible_bets := (acting_order.filter (fun j =>
              let p := gs.players.getD j defaultPlayer
              !p.is_folded && !p.is_all_in)).map
                (fun j => (gs.players.getD j defaultPlayer).current_bet)
            let bets_equal := match eligible_bets with
              | [] => true
              | b :: rest => rest.all (· == b)
            let first_bet_val := eligible_bets.headD (-1)
            if decide (num_actions ≥ acting_order.length) && bets_equal &&
                (gs.current_bet_to_match == first_bet_val) then
              breakResult engine trace
            else if aggressor.isNone && decide (num_actions ≥ acting_order.length) then
              breakResult engine trace
            else if aggressor.isSome && acting_order.all (fun j =>
                let p := gs.players.getD j defaultPlayer
                p.is_folded || p.is_all_in ||
                  decide (¬ (p.current_bet < gs.current_bet_to_match))) then
              breakResult engine trace
            else
              runBettingLoop engine acting_order 0 num_actions aggressor script trace fuel
        else
          runBettingLoop engine acting_order idx2 num_actions aggressor script trace fuel
      else
        -- acting branch
        let allowed := TexasHoldemRules.get_allowed_actions player gs
        let autoCheck :=
          (!allowed.fold && !allowed.check && allowed.call.isNone &&
            allowed.bet.isNone && allowed.raiseOpt.isNone) ||
          (allowed.fold && !allowed.check && allowed.call.isNone &&
            allowed.bet.isNone && allowed.raiseOpt.isNone && player.stack == 0)
        let actionAndScript : Option (Events.Action × List Events.Action) :=
          if autoCheck then some (⟨"check", 0, player.player_id⟩, script)
          else match script with
            | [] => none
            | a :: rest => some (a, rest)
        match actionAndScript with
        | none => none
        | some (action, script2) =>
          let num_actions2 := num_actions + 1
          let r := processPlayerAction engine pi action allowed
          let engine2 := r.1
          let ra :=
            if r.2.1 then (engine2, r.2.2)
            else
              let af : Events.Action := ⟨"fold", 0, player.player_id⟩
              ((processPlayerAction engine2 pi af ⟨true, false, none, none, none⟩).1, af)
          let engine3 := ra.1
          let action3 := ra.2
          let aggressor2 :=
            if action3.type == "bet" || action3.type == "raise" then
              some player.player_id
            else aggressor
          let gs3 := engine3.gs
          let trace2 := trace ++ [player.player_id]
          let concluded :=
            if num_actions2 ≥ acting_order.length then
              if acting_order.all (fun j =>
                  let p := gs3.players.getD j defaultPlayer
                  p.is_folded || p.is_all_in ||
                    decide (¬ (p.current_bet < gs3.current_bet_to_match))) then
                match aggressor2 with
                | none => true
                | some a => a == player.player_id
              else false
            else false
          if concluded then breakResult engine3 trace2
          else
            let idx2 := current_player_index + 1
            let idx3 := if idx2 ≥ acting_order.length then 0 else idx2
            runBettingLoop engine3 acting_order idx3 num_actions2 aggressor2 script2
              trace2 fuel

/-- `GameEngine._run_betting_round` (script-driven). -/
def run_betting_round (engine : EngineSt) (script : List Events.Action) (fuel : Nat) :
    Option (EngineSt × Bool × List String) :=
  let gs := engine.gs
  let acting_order := get_betting_order_idx gs.players gs.dealer_button_position
    gs.game_phase
  if acting_order.isEmpty then some (engine, true, [])
  else
    let engine2 :=
      if gs.game_phase != "pre-flop" then
        let resetPlayers := (gs.players.enum).map (fun ip =>
          if engine.active_round_players.contains ip.1 then
            { ip.2 with current_bet := 0 }
          else ip.2)
        let gs4 := { gs with
          current_bet_to_match := 0, last_raiser := none,
          last_raise_amount := 0, players := resetPlayers }
        ⟨gs4, engine.active_round_players⟩
      else engine
    runBettingLoop engine2 acting_order 0 0 engine2.gs.last_raiser script [] fuel

end GameEngine

/-- A fresh heads-up pre-flop table: two players with stacks 1000, blinds
10/20, dealer button at seat 0, before blinds are posted. -/
def c6HeadsUpState : GameEngine.EngineSt :=
  ⟨⟨[⟨"P1", 1000, [], 0, false, false⟩, ⟨"P2", 1000, [], 0, false, false⟩],
    0, 0, [], 0, 0, 0, none, 0, "pre-flop", 10, 20, 20, 1, false, none, none⟩,
   [0, 1]⟩

/-- A 3-handed pre-flop table just after blinds: dealer 0, small blind
seat 1 (10 in), big blind seat 2 (20 in), 30 chips on the street. -/
def c5ThreeHanded : GameEngine.EngineSt :=
  ⟨⟨[⟨"P0", 1000, [], 0, false, false⟩, ⟨"P1", 990, [], 10, false, false⟩,
     ⟨"P2", 980, [], 20, false, false⟩],
    0, 0, [], 0, 30, 20, some "P2", 20, "pre-flop", 10, 20, 20, 1, false,
    some "P1", some "P2"⟩,
   [0, 1, 2]⟩

/-- The scripted actions for the 3-handed street: both non-blind seats
call, the big blind puts in a pot-opening aggressive action, and the two
earlier callers must respond before the street can close. -/
def c5Script : List Events.Action :=
  [⟨"call", 0, "P0"⟩, ⟨"call", 0, "P1"⟩, ⟨"bet", 20, "P2"⟩,
   ⟨"call", 0, "P0"⟩, ⟨"call", 0, "P1"⟩, ⟨"check", 0, "P2"⟩]

/-- A seat with 10 chips facing a 20-chip bet: only fold or an all-in
call are legal (no raise). -/
def c8ShortStack : GameEngine.EngineSt :=
  ⟨⟨[⟨"P1", 10, [], 0, false, false⟩], 0, 0, [], 0, 0, 20, none, 0, "flop",
    10, 20, 20, 1, false, none, none⟩,
   [0]⟩

/-- A concrete 3-way-tie settlement state: the board itself is a royal
flush, so all three players tie; pot 100, no street bets outstanding. -/
def c4TieState : GameState :=
  ⟨[⟨"P1", 500, [⟨"2", "♥"⟩, ⟨"3", "♥"⟩], 0, false, false⟩,
    ⟨"P2", 500, [⟨"2", "♦"⟩, ⟨"3", "♦"⟩], 0, false, false⟩,
    ⟨"P3", 500, [⟨"2", "♣"⟩, ⟨"3", "♣"⟩], 0, false, false⟩],
   0, 0,
   [⟨"A", "♠"⟩, ⟨"K", "♠"⟩, ⟨"Q", "♠"⟩, ⟨"J", "♠"⟩, ⟨"T", "♠"⟩],
   100, 0, 0, none, 0, "showdown", 10, 20, 20, 1, false, none, none⟩

/-- The chips visible to the betting layer: every stack plus the collected
pot plus the current street's pot. -/
def totalChips (gs : GameState) : Int :=
  (gs.players.map Player.stack).sum + gs.pot_size + gs.current_round_pot

/-- Every non-folded, non-all-in seat listed in `order` has its street bet
up to `current_bet_to_match`. -/
def eligibleBetsMatched (gs : GameState) (order : List Nat) : Prop :=
  ∀ j ∈ order, ((gs.players.getD j defaultPlayer).is_folded = false →
    (gs.players.getD j defaultPlayer).is_all_in = false →
    gs.current_bet_to_match ≤ (gs.players.getD j defaultPlayer).current_bet)

instance (gs : GameState) (order : List Nat) :
    Decidable (eligibleBetsMatched gs order) := by
  unfold eligibleBetsMatched; infer_instance

/-- Spec-side ("standard poker rules") consecutive-descending test on a
rank list, per the specification's straight description. -/
def specConsecutive : List Int → Bool
  | [] => true
  | [_] => true
  | x :: y :: rest => (y == x - 1) && specConsecutive (y :: rest)

/-- Spec-side classification of a descending 5-card rank list with a flush
flag, following the specification's category order and per-category kicker
rules (modelled from the spec, to be compared against `calcCore`). -/
def specEvalCore (ranks : List Int) (is_flush : Bool) : String × Int × List Int :=
  let w := sameSet ranks [14, 5, 4, 3, 2]
  let straight := specConsecutive ranks || w
  let uniq := pyUnique ranks
  let quad := uniq.find? (fun r => ranks.count r == 4)
  let trips := uniq.find? (fun r => ranks.count r == 3)
  let pairs := pySort (fun a b => b ≤ a) (uniq.filter (fun r => ranks.count r == 2))
  let skick := if w then [5, 4, 3, 2, 1] else ranks
  if straight && is_flush then
    if ranks == [14, 13, 12, 11, 10] then ("ROYAL_FLUSH", 10, skick)
    else ("STRAIGHT_FLUSH", 9, skick)
  else if quad.isSome then
    ("FOUR_OF_A_KIND", 8,
      [quad.getD 0, (ranks.filter (fun r => r ≠ quad.getD 0)).headD 0])
  else if trips.isSome && !pairs.isEmpty then
    ("FULL_HOUSE", 7, [trips.getD 0, pairs.headD 0])
  else if is_flush then ("FLUSH", 6, ranks)
  else if straight then ("STRAIGHT", 5, skick)
  else if trips.isSome then
    ("THREE_OF_A_KIND", 4,
      trips.getD 0 :: (ranks.filter (fun r => r ≠ trips.getD 0)).take 2)
  else if pairs.length == 2 then
    ("TWO_PAIR", 3, [pairs.headD 0, pairs.getD 1 0,
      (ranks.filter (fun r => r ≠ pairs.headD 0 && r ≠ pairs.getD 1 0)).headD 0])
  else if pairs.length == 1 then
    ("ONE_PAIR", 2,
      pairs.headD 0 :: (ranks.filter (fun r => r ≠ pairs.headD 0)).take 3)
  else ("HIGH_CARD", 1, ranks)

/-! ## General lemmas about the Python-modelling helpers -/

theorem pyInsert_perm (le : α → α → Bool) (a : α) (l : List α) :
    (pyInsert le a l).Perm (a :: l) := by
  induction l with
  | nil => simp [pyInsert]
  | cons b bs ih =>
    simp only [pyInsert]
    split
    · exact List.Perm.refl _
    · exact (List.Perm.cons b ih).trans (List.Perm.swap a b bs)

theorem pySort_perm (le : α → α → Bool) (l : List α) : (pySort le l).Perm l := by
  induction l with
  | nil => simp [pySort]
  | cons a as ih =>
    exact (pyInsert_perm le a (pySort le as)).trans (List.Perm.cons a ih)

theorem pyInsert_pairwise (le : α → α → Bool)
    (htrans : ∀ x y z, le x y = true → le y z = true → le x z = true)
    (htotal : ∀ x y, le x y = true ∨ le y x = true)
    (a : α) (l : List α) (hl : l.Pairwise (fun x y => le x y = true)) :
    (pyInsert le a l).Pairwise (fun x y => le x y = true) := by
  induction l with
  | nil => simp [pyInsert]
  | cons b bs ih =>
    simp only [pyInsert]
    rcases List.pairwise_cons.1 hl with ⟨hb, hbs⟩
    split
    · rename_i hab
      refine List.pairwise_cons.2 ⟨?_, hl⟩
      intro x hx
      rcases List.mem_cons.1 hx with h | hx
      · rw [h]; exact hab
      · exact htrans a b x hab (hb x hx)
    · rename_i hab
      have hba : le b a = true := by
        rcases htotal a b with h | h
        · exact absurd h hab
        · exact h
      refine List.pairwise_cons.2 ⟨?_, ih hbs⟩
      intro x hx
      rcases List.mem_cons.1 ((pyInsert_perm le a bs).mem_iff.1 hx) with rfl | hx'
      · exact hba
      · exact hb x hx'

theorem pySort_pairwise (le : α → α → Bool)
    (htrans : ∀ x y z, le x y = true → le y z = true → le x z = true)
    (htotal : ∀ x y, le x y = true ∨ le y x = true)
    (l : List α) : (pySort le l).Pairwise (fun x y => le x y = true) := by
  induction l with
  | nil => simp [pySort]
  | cons a as ih => exact pyInsert_pairwise le htrans htotal a _ ih

theorem pyUniqueGo_mem [DecidableEq α] (seen : List α) (l : List α) (x : α) :
    x ∈ pyUniqueGo seen l ↔ x ∈ l ∧ x ∉ seen := by
  induction l generalizing seen with
  | nil => simp [pyUniqueGo]
  | cons a as ih =>
    simp only [pyUniqueGo]
    split
    · rename_i ha
      rw [ih]
      simp only [List.mem_cons]
      constructor
      · rintro ⟨hx, hs⟩; exact ⟨Or.inr hx, hs⟩
      · rintro ⟨rfl | hx, hs⟩
        · exact absurd ha hs
        · exact ⟨hx, hs⟩
    · rename_i ha
      simp only [List.mem_cons, ih, List.mem_cons]
      constructor
      · rintro (rfl | ⟨hx, hs⟩)
        · exact ⟨Or.inl rfl, ha⟩
        · exact ⟨Or.inr hx, fun h => hs (Or.inr h)⟩
      · rintro ⟨rfl | hx, hs⟩
        · exact Or.inl rfl
        · by_cases hxa : x = a
          · exact Or.inl hxa
          · exact Or.inr ⟨hx, fun h => h.elim hxa hs⟩

theorem pyUniqueGo_nodup [DecidableEq α] (seen : List α) (l : List α) :
    (pyUniqueGo seen l).Nodup := by
  induction l generalizing seen with
  | nil => simp [pyUniqueGo]
  | cons a as ih =>
    simp only [pyUniqueGo]
    split
    · exact ih seen
    · refine List.nodup_cons.2 ⟨?_, ih (a :: seen)⟩
      intro hmem
      exact ((pyUniqueGo_mem _ _ _).1 hmem).2 (List.mem_cons_self a seen)

theorem pyUnique_mem [DecidableEq α] (l : List α) (x : α) :
    x ∈ pyUnique l ↔ x ∈ l := by
  unfold pyUnique
  rw [pyUniqueGo_mem]
  simp

theorem pyUnique_nodup [DecidableEq α] (l : List α) : (pyUnique l).Nodup :=
  pyUniqueGo_nodup [] l

theorem pyUnique_toFinset [DecidableEq α] (l : List α) :
    (pyUnique l).toFinset = l.toFinset := by
  ext x
  simp [pyUnique_mem]

theorem pyUnique_length [DecidableEq α] (l : List α) :
    (pyUnique l).length = l.toFinset.card := by
  rw [← pyUnique_toFinset, List.toFinset_card_of_nodup (pyUnique_nodup l)]

theorem pyUnique_length_perm [DecidableEq α] {l₁ l₂ : List α} (h : l₁.Perm l₂) :
    (pyUnique l₁).length = (pyUnique l₂).length := by
  rw [pyUnique_length, pyUnique_length, List.toFinset_eq_of_perm _ _ h]

theorem combinations_mem (n : Nat) (l : List α) (c : List α) :
    c ∈ combinations n l ↔ c.Sublist l ∧ c.length = n := by
  induction l generalizing n c with
  | nil =>
    cases n with
    | zero =>
      simp only [combinations, List.mem_singleton]
      constructor
      · rintro rfl; exact ⟨List.Sublist.refl _, rfl⟩
      · rintro ⟨hs, hlen⟩
        exact List.eq_nil_of_length_eq_zero hlen
    | succ m =>
      simp only [combinations, List.not_mem_nil, false_iff, not_and]
      intro hs hlen
      rw [List.sublist_nil.1 hs] at hlen
      simp at hlen
  | cons a as ih =>
    cases n with
    | zero =>
      simp only [combinations, List.mem_singleton]
      constructor
      · rintro rfl; exact ⟨List.nil_sublist _, rfl⟩
      · rintro ⟨hs, hlen⟩
        exact List.eq_nil_of_length_eq_zero hlen
    | succ m =>
      simp only [combinations, List.mem_append, List.mem_map]
      constructor
      · rintro (⟨c', hc', rfl⟩ | hc)
        · rcases (ih m c').1 hc' with ⟨hs, hlen⟩
          exact ⟨List.Sublist.cons₂ a hs, by simp [hlen]⟩
        · rcases (ih (m + 1) c).1 hc with ⟨hs, hlen⟩
          exact ⟨List.Sublist.cons a hs, hlen⟩
      · rintro ⟨hs, hlen⟩
        cases c with
        | nil => simp at hlen
        | cons x xs =>
          rcases List.sublist_cons_iff.1 hs with hxs | ⟨w, heq, hw⟩
          · right
            exact (ih (m + 1) (x :: xs)).2 ⟨hxs, hlen⟩
          · obtain ⟨rfl, rfl⟩ := List.cons_eq_cons.1 heq
            left
            exact ⟨xs, (ih m xs).2 ⟨hw, by simpa using hlen⟩, rfl⟩

theorem combinations_length (n : Nat) (l : List α) :
    (combinations n l).length = l.length.choose n := by
  induction l generalizing n with
  | nil => cases n <;> simp [combinations]
  | cons a as ih =>
    cases n with
    | zero => simp [combinations]
    | succ m =>
      simp [combinations, ih, Nat.choose_succ_succ, Nat.add_comm]

/-! ## The maximum property of `evaluate_hand` (claim C1) -/

namespace HandEvaluator

/-- The hand value that `evaluate_hand`'s loop compares:
`(hand rank, kickers)`. -/
def valPair (r : HandResult) : Int × List Int := (r.2.2.1, r.2.2.2)

/-- Evaluation of one 5-card combination exactly as the loop does:
sort descending and run `_calculate_hand_details`. -/
def mkRes (c : List Card) : HandResult :=
  let d := calculate_hand_details (sortByRankDesc c)
  (d.1, sortByRankDesc c, d.2.1, d.2.2)

/-- The `(rank, kickers)` value of one 5-card combination. -/
def valOf (c : List Card) : Int × List Int := valPair (mkRes c)

/-- The strict "replace the incumbent" relation of `evaluate_hand`'s loop:
strictly higher rank, or equal rank and strictly better kickers
element-wise. -/
def handBeats (cand inc : Int × List Int) : Bool :=
  cand.1 > inc.1 || (cand.1 == inc.1 && kickersBeat cand.2 inc.2)

theorem kickersBeat_irrefl (k : List Int) : kickersBeat k k = false := by
  induction k with
  | nil => rfl
  | cons n ns ih => simp [kickersBeat, ih]

theorem kickersBeat_trans {x y z : List Int} (hxy : kickersBeat x y = true)
    (hyz : kickersBeat y z = true) : kickersBeat x z = true := by
  induction x generalizing y z with
  | nil => simp [kickersBeat] at hxy
  | cons n ns ih =>
    cases y with
    | nil => simp [kickersBeat] at hxy
    | cons o os =>
      cases z with
      | nil => simp [kickersBeat] at hyz
      | cons p ps =>
        simp only [kickersBeat] at hxy hyz ⊢
        split at hxy
        · rename_i hno
          split at hyz
          · rename_i hop
            rw [if_pos (by omega)]
          · split at hyz
            · simp at hyz
            · rename_i hop1 hop2
              have : o = p := by omega
              rw [if_pos (by omega)]
        · split at hxy
          · simp at hxy
          · rename_i hno1 hno2
            have hno : n = o := by omega
            split at hyz
            · rename_i hop
              rw [if_pos (by omega)]
            · split at hyz
              · simp at hyz
              · rename_i hop1 hop2
                have hop : o = p := by omega
                rw [if_neg (by omega), if_neg (by omega)]
                exact ih hxy hyz

theorem handBeats_irrefl (v : Int × List Int) : handBeats v v = false := by
  simp [handBeats, kickersBeat_irrefl]

theorem handBeats_trans {u v w : Int × List Int} (huv : handBeats u v = true)
    (hvw : handBeats v w = true) : handBeats u w = true := by
  simp only [handBeats, Bool.or_eq_true, Bool.and_eq_true, decide_eq_true_eq,
    beq_iff_eq] at huv hvw ⊢
  rcases huv with h1 | ⟨h1, k1⟩
  · rcases hvw with h2 | ⟨h2, k2⟩
    · exact Or.inl (by omega)
    · exact Or.inl (by omega)
  · rcases hvw with h2 | ⟨h2, k2⟩
    · exact Or.inl (by omega)
    · exact Or.inr ⟨by omega, kickersBeat_trans k1 k2⟩

theorem evalStep_of_beats {b : HandResult} {c : List Card}
    (h : handBeats (valOf c) (valPair b) = true) : evalStep b c = mkRes c := by
  rcases b with ⟨n, ⟨cs, ⟨r, k⟩⟩⟩
  simp only [handBeats, valOf, valPair, mkRes, Bool.or_eq_true, Bool.and_eq_true,
    decide_eq_true_eq, beq_iff_eq] at h
  simp only [evalStep, mkRes]
  rcases h with h | ⟨h1, h2⟩
  · rw [if_pos (by exact_mod_cast h)]
  · rw [if_neg (by simp; omega), if_pos (by simp [h1, h2])]

theorem evalStep_of_not_beats {b : HandResult} {c : List Card}
    (h : handBeats (valOf c) (valPair b) = false) : evalStep b c = b := by
  rcases b with ⟨n, ⟨cs, ⟨r, k⟩⟩⟩
  simp only [handBeats, valOf, valPair, mkRes, Bool.or_eq_false_iff,
    Bool.and_eq_false_iff] at h
  simp only [evalStep]
  rcases h with ⟨h1, h2⟩
  rw [if_neg (by simpa using h1)]
  rcases h2 with h2 | h2
  · rw [if_neg (by simp; intro hc; simp [hc] at h2)]
  · rw [if_neg (by simp [h2])]

theorem foldl_evalStep_spec (L : List (List Card)) (b0 : HandResult) :
    (L.foldl evalStep b0 = b0 ∨ ∃ c ∈ L, L.foldl evalStep b0 = mkRes c) ∧
    (∀ c ∈ L, handBeats (valOf c) (valPair (L.foldl evalStep b0)) = false) ∧
    (valPair (L.foldl evalStep b0) = valPair b0 ∨
      handBeats (valPair (L.foldl evalStep b0)) (valPair b0) = true) := by
  induction L generalizing b0 with
  | nil => exact ⟨Or.inl rfl, by simp, Or.inl rfl⟩
  | cons c0 L ih =>
    simp only [List.foldl_cons]
    by_cases hbeat : handBeats (valOf c0) (valPair b0) = true
    · rw [evalStep_of_beats hbeat]
      rcases ih (mkRes c0) with ⟨hres, hmax, himp⟩
      have hvm : valPair (mkRes c0) = valOf c0 := rfl
      rw [hvm] at himp
      refine ⟨?_, ?_, ?_⟩
      · rcases hres with h | ⟨c, hc, h⟩
        · exact Or.inr ⟨c0, List.mem_cons_self _ _, h⟩
        · exact Or.inr ⟨c, List.mem_cons_of_mem _ hc, h⟩
      · intro c hc
        rcases List.mem_cons.1 hc with h | hc
        · subst h
          rcases himp with h | h
          · rw [h]
            exact handBeats_irrefl _
          · by_contra hcon
            rw [Bool.not_eq_false] at hcon
            have := handBeats_trans hcon h
            have hirr := handBeats_irrefl (valOf c)
            rw [hirr] at this
            exact Bool.false_ne_true this
        · exact hmax c hc
      · rcases himp with h | h
        · exact Or.inr (by rw [h]; exact hbeat)
        · exact Or.inr (handBeats_trans h hbeat)
    · rw [Bool.not_eq_true] at hbeat
      rw [evalStep_of_not_beats hbeat]
      rcases ih b0 with ⟨hres, hmax, himp⟩
      refine ⟨?_, ?_, himp⟩
      · rcases hres with h | ⟨c, hc, h⟩
        · exact Or.inl h
        · exact Or.inr ⟨c, List.mem_cons_of_mem _ hc, h⟩
      · intro c hc
        rcases List.mem_cons.1 hc with h | hc
        · subst h
          rcases himp with h | h
          · rw [h]; exact hbeat
          · by_contra hcon
            rw [Bool.not_eq_false] at hcon
            have := handBeats_trans hcon h
            rw [hbeat] at this
            exact Bool.false_ne_true this
        · exact hmax c hc

/-- Every 5-card evaluation has rank at least 1 (`HIGH_CARD`). -/
theorem calcCore_rank_pos (ranks : List Int) (f : Bool) :
    1 ≤ (calcCore ranks f).2.1 := by
  unfold calcCore
  by_cases h1 : ((straightInfo ranks).isSome && f) = true
  · rw [if_pos h1]
    by_cases h2 : ((((straightInfo ranks).getD (0, [])).1 == 14) &&
        ((pySort (fun a b => decide (b ≤ a)) (pyUnique ranks)).headD 0 == 14)) = true
    · rw [if_pos h2]
      by_cases h3 : sameSet ranks [14, 13, 12, 11, 10] = true
      · rw [if_pos h3]; norm_num [HAND_RANKINGS]
      · rw [if_neg h3]; norm_num [HAND_RANKINGS]
    · rw [if_neg h2]; norm_num [HAND_RANKINGS]
  · rw [if_neg h1]
    by_cases h4 : (((sortedRankCounts ranks).headD (0, 0)).2 == 4) = true
    · rw [if_pos h4]; norm_num [HAND_RANKINGS]
    · rw [if_neg h4]
      by_cases h5 : ((((sortedRankCounts ranks).headD (0, 0)).2 == 3) &&
          ((((sortedRankCounts ranks).get? 1).getD (0, 0)).2 == 2)) = true
      · rw [if_pos h5]; norm_num [HAND_RANKINGS]
      · rw [if_neg h5]
        by_cases h6 : f = true
        · rw [if_pos h6]; norm_num [HAND_RANKINGS]
        · rw [if_neg h6]
          by_cases h7 : (straightInfo ranks).isSome = true
          · rw [if_pos h7]; norm_num [HAND_RANKINGS]
          · rw [if_neg h7]
            by_cases h8 : (((sortedRankCounts ranks).headD (0, 0)).2 == 3) = true
            · rw [if_pos h8]; norm_num [HAND_RANKINGS]
            · rw [if_neg h8]
              by_cases h9 : ((((sortedRankCounts ranks).headD (0, 0)).2 == 2) &&
                  ((((sortedRankCounts ranks).get? 1).getD (0, 0)).2 == 2)) = true
              · rw [if_pos h9]; norm_num [HAND_RANKINGS]
              · rw [if_neg h9]
                by_cases h10 : (((sortedRankCounts ranks).headD (0, 0)).2 == 2) = true
                · rw [if_pos h10]; norm_num [HAND_RANKINGS]
                · rw [if_neg h10]; norm_num [HAND_RANKINGS]

theorem calculate_hand_details_rank_pos (l : List Card) :
    1 ≤ (calculate_hand_details l).2.1 :=
  calcCore_rank_pos _ _

theorem sortByRankDesc_perm (l : List Card) : (sortByRankDesc l).Perm l :=
  pySort_perm _ l

/-- Permuting the input cards leaves the sorted rank list unchanged. -/
theorem sortByRankDesc_map_rank {s t : List Card} (h : s.Perm t) :
    (sortByRankDesc s).map Card.rank_value = (sortByRankDesc t).map Card.rank_value := by
  haveI : IsAntisymm Int (fun x y => y ≤ x) := ⟨fun a b h1 h2 => le_antisymm h2 h1⟩
  apply List.eq_of_perm_of_sorted (r := fun x y : Int => y ≤ x)
  · exact List.Perm.map _ (((sortByRankDesc_perm s).trans h).trans (sortByRankDesc_perm t).symm)
  · rw [List.Sorted, List.pairwise_map]
    have := pySort_pairwise (fun a b : Card => decide (b.rank_value ≤ a.rank_value))
      (fun x y z hxy hyz => by
        simp only [decide_eq_true_eq] at hxy hyz ⊢; omega)
      (fun x y => by
        rcases le_total x.rank_value y.rank_value with h | h
        · exact Or.inr (by simpa using h)
        · exact Or.inl (by simpa using h)) s
    exact this.imp (by simp)
  · rw [List.Sorted, List.pairwise_map]
    have := pySort_pairwise (fun a b : Card => decide (b.rank_value ≤ a.rank_value))
      (fun x y z hxy hyz => by
        simp only [decide_eq_true_eq] at hxy hyz ⊢; omega)
      (fun x y => by
        rcases le_total x.rank_value y.rank_value with h | h
        · exact Or.inr (by simpa using h)
        · exact Or.inl (by simpa using h)) t
    exact this.imp (by simp)

/-- The `(rank, kickers)` value of a 5-card subset does not depend on the
order the cards are listed in. -/
theorem valOf_perm {s t : List Card} (h : s.Perm t) : valOf s = valOf t := by
  have hranks := sortByRankDesc_map_rank h
  have hsuits : (pyUnique ((sortByRankDesc s).map Card.suit)).length =
      (pyUnique ((sortByRankDesc t).map Card.suit)).length :=
    pyUnique_length_perm (List.Perm.map _
      (((sortByRankDesc_perm s).trans h).trans (sortByRankDesc_perm t).symm))
  simp only [valOf, mkRes, valPair, calculate_hand_details, hranks, hsuits]

/-- If the zip comparison says the right hand wins, the right hand's
kickers beat the left's. -/
theorem zipCompare_neg {a b : List Int} (h : zipCompareKickers a b = -1) :
    kickersBeat b a = true := by
  induction a generalizing b with
  | nil => simp [zipCompareKickers] at h
  | cons x xs ih =>
    cases b with
    | nil => simp [zipCompareKickers] at h
    | cons y ys =>
      simp only [zipCompareKickers] at h
      simp only [kickersBeat]
      split at h
      · simp at h
      · split at h
        · rename_i h1 h2
          rw [if_pos (by omega)]
        · rename_i h1 h2
          rw [if_neg (by omega), if_neg (by omega)]
          exact ih h

/-- Every 5-card sublist of the original cards appears, up to permutation,
among the combinations of the sorted card list. -/
theorem sublist_combo {s l : List Card} (hs : s.Sublist l) (hlen : s.length = 5) :
    ∃ c ∈ combinations 5 (sortByRankDesc l), c.Perm s := by
  have hsub : s.Subperm (sortByRankDesc l) :=
    hs.subperm.trans (sortByRankDesc_perm l).symm.subperm
  rcases hsub with ⟨c, hcs, hcl⟩
  exact ⟨c, (combinations_mem 5 _ c).2 ⟨hcl, by rw [hcs.length_eq, hlen]⟩, hcs⟩

end HandEvaluator

/-- C1: with at least 5 total cards, `evaluate_hand` returns exactly the
evaluation of one of the 5-card combinations of its (sorted) input, and that
result is the maximum over every 5-card subset of the input cards under the
ordering "compare category rank first, then kicker lists element-wise"
(`compare_hands` never ranks it below any subset); with 7 total cards the
loop ranges over C(7,5) = 21 subsets. -/
theorem c1_evaluate_hand_max (hole_cards community_cards : List Card)
    (h5 : 5 ≤ (hole_cards ++ community_cards).length) :
    (∃ c, c.Sublist (sortByRankDesc (hole_cards ++ community_cards)) ∧ c.length = 5 ∧
        HandEvaluator.evaluate_hand hole_cards community_cards = HandEvaluator.mkRes c) ∧
    (∀ s, s.Sublist (hole_cards ++ community_cards) → s.length = 5 →
        HandEvaluator.compare_hands (HandEvaluator.evaluate_hand hole_cards community_cards)
          (HandEvaluator.mkRes s) ≠ -1) ∧
    ((hole_cards ++ community_cards).length = 7 →
        (combinations 5 (sortByRankDesc (hole_cards ++ community_cards))).length = 21) := by
  have hlen : (sortByRankDesc (hole_cards ++ community_cards)).length =
      (hole_cards ++ community_cards).length :=
    (HandEvaluator.sortByRankDesc_perm _).length_eq
  have heval : HandEvaluator.evaluate_hand hole_cards community_cards =
      (combinations 5 (sortByRankDesc (hole_cards ++ community_cards))).foldl
        HandEvaluator.evalStep
        ("HIGH_CARD", (sortByRankDesc (hole_cards ++ community_cards)).take 5,
          0, ((sortByRankDesc (hole_cards ++ community_cards)).take 5).map Card.rank_value) := by
    unfold HandEvaluator.evaluate_hand
    rw [if_neg (by omega)]
  rcases HandEvaluator.foldl_evalStep_spec
      (combinations 5 (sortByRankDesc (hole_cards ++ community_cards)))
      ("HIGH_CARD", (sortByRankDesc (hole_cards ++ community_cards)).take 5,
        0, ((sortByRankDesc (hole_cards ++ community_cards)).take 5).map Card.rank_value)
    with ⟨hres, hmax, _⟩
  rw [← heval] at hres hmax
  have hne : combinations 5 (sortByRankDesc (hole_cards ++ community_cards)) ≠ [] := by
    apply List.length_pos.1
    rw [combinations_length, hlen]
    exact Nat.choose_pos (by omega)
  refine ⟨?_, ?_, ?_⟩
  · rcases hres with h | ⟨c, hc, h⟩
    · exfalso
      rcases List.exists_mem_of_ne_nil _ hne with ⟨c0, hc0⟩
      have hb := hmax c0 hc0
      rw [h] at hb
      have hrank := HandEvaluator.calculate_hand_details_rank_pos (sortByRankDesc c0)
      simp only [HandEvaluator.handBeats, HandEvaluator.valOf, HandEvaluator.mkRes,
        HandEvaluator.valPair, Bool.or_eq_false_iff] at hb
      rcases hb with ⟨hb1, _⟩
      simp only [decide_eq_false_iff_not, not_lt] at hb1
      omega
    · rcases (combinations_mem 5 _ c).1 hc with ⟨hsub, hclen⟩
      exact ⟨c, hsub, hclen, h⟩
  · intro s hs hslen
    rcases HandEvaluator.sublist_combo hs hslen with ⟨c, hc, hperm⟩
    have hb := hmax c hc
    rw [HandEvaluator.valOf_perm hperm] at hb
    have hb1 : ¬ ((HandEvaluator.calculate_hand_details (sortByRankDesc s)).2.1 >
        (HandEvaluator.evaluate_hand hole_cards community_cards).2.2.1) := by
      simp only [HandEvaluator.handBeats, HandEvaluator.valOf, HandEvaluator.mkRes,
        HandEvaluator.valPair, Bool.or_eq_false_iff, Bool.and_eq_false_iff,
        decide_eq_false_iff_not] at hb
      exact hb.1
    have hb2 : (HandEvaluator.calculate_hand_details (sortByRankDesc s)).2.1 =
          (HandEvaluator.evaluate_hand hole_cards community_cards).2.2.1 →
        HandEvaluator.kickersBeat
          (HandEvaluator.calculate_hand_details (sortByRankDesc s)).2.2
          (HandEvaluator.evaluate_hand hole_cards community_cards).2.2.2 = false := by
      intro he
      simp only [HandEvaluator.handBeats, HandEvaluator.valOf, HandEvaluator.mkRes,
        HandEvaluator.valPair, Bool.or_eq_false_iff, Bool.and_eq_false_iff] at hb
      rcases hb.2 with h | h
      · rw [beq_eq_false_iff_ne] at h
        exact absurd he h
      · exact h
    simp only [HandEvaluator.compare_hands, HandEvaluator.mkRes]
    by_cases hgt : (HandEvaluator.evaluate_hand hole_cards community_cards).2.2.1 >
        (HandEvaluator.calculate_hand_details (sortByRankDesc s)).2.1
    · rw [if_pos hgt]; decide
    · rw [if_neg hgt, if_neg (by omega)]
      intro hzip
      have hkb := HandEvaluator.zipCompare_neg hzip
      have heq : (HandEvaluator.calculate_hand_details (sortByRankDesc s)).2.1 =
          (HandEvaluator.evaluate_hand hole_cards community_cards).2.2.1 := by omega
      rw [hb2 heq] at hkb
      exact Bool.false_ne_true hkb
  · intro h7
    rw [combinations_length, hlen, h7]
    decide

/-- Witness for C1 at a concrete 7-card input (A♦K♦ + Q♦J♦T♦2♠3♥). -/
theorem c1_evaluate_hand_max_witness :
    5 ≤ (([⟨"A", "♦"⟩, ⟨"K", "♦"⟩] ++
        [⟨"Q", "♦"⟩, ⟨"J", "♦"⟩, ⟨"T", "♦"⟩, ⟨"2", "♠"⟩, ⟨"3", "♥"⟩] : List Card)).length ∧
    ((∃ c, c.Sublist (sortByRankDesc (([⟨"A", "♦"⟩, ⟨"K", "♦"⟩] ++
          [⟨"Q", "♦"⟩, ⟨"J", "♦"⟩, ⟨"T", "♦"⟩, ⟨"2", "♠"⟩, ⟨"3", "♥"⟩] : List Card))) ∧
        c.length = 5 ∧
        HandEvaluator.evaluate_hand [⟨"A", "♦"⟩, ⟨"K", "♦"⟩]
          [⟨"Q", "♦"⟩, ⟨"J", "♦"⟩, ⟨"T", "♦"⟩, ⟨"2", "♠"⟩, ⟨"3", "♥"⟩] = HandEvaluator.mkRes c) ∧
    (∀ s, s.Sublist (([⟨"A", "♦"⟩, ⟨"K", "♦"⟩] ++
          [⟨"Q", "♦"⟩, ⟨"J", "♦"⟩, ⟨"T", "♦"⟩, ⟨"2", "♠"⟩, ⟨"3", "♥"⟩] : List Card)) → s.length = 5 →
        HandEvaluator.compare_hands
          (HandEvaluator.evaluate_hand [⟨"A", "♦"⟩, ⟨"K", "♦"⟩]
            [⟨"Q", "♦"⟩, ⟨"J", "♦"⟩, ⟨"T", "♦"⟩, ⟨"2", "♠"⟩, ⟨"3", "♥"⟩])
          (HandEvaluator.mkRes s) ≠ -1) ∧
    ((([⟨"A", "♦"⟩, ⟨"K", "♦"⟩] ++
          [⟨"Q", "♦"⟩, ⟨"J", "♦"⟩, ⟨"T", "♦"⟩, ⟨"2", "♠"⟩, ⟨"3", "♥"⟩] : List Card)).length = 7 →
        (combinations 5 (sortByRankDesc (([⟨"A", "♦"⟩, ⟨"K", "♦"⟩] ++
          [⟨"Q", "♦"⟩, ⟨"J", "♦"⟩, ⟨"T", "♦"⟩, ⟨"2", "♠"⟩, ⟨"3", "♥"⟩] : List Card)))).length = 21)) :=
  ⟨by decide, c1_evaluate_hand_max _ _ (by decide)⟩

/-! ## Claims C9 and C3: card equality and the Royal Flush rank -/

/-- C9 counterexample: A♥ and A♠ have equal ranks but `Card.__eq__` is
false, so equality is not determined by rank alone. -/
theorem c9_counterexample :
    cardEq ⟨"A", "♥"⟩ ⟨"A", "♠"⟩ = false ∧
    (Card.mk "A" "♥").rank = (Card.mk "A" "♠").rank := by decide

/-- C9 amended: `Card.__eq__` holds iff rank AND suit are both equal
(suit does distinguish otherwise-equal cards), while `Card.__lt__`
(ordering) is by numeric rank value only. -/
theorem c9_card_eq_by_rank_and_suit (a b : Card) :
    (cardEq a b = true ↔ a.rank = b.rank ∧ a.suit = b.suit) ∧
    (cardLt a b = true ↔ a.rank_value < b.rank_value) := by
  constructor
  · simp [cardEq]
  · simp [cardLt]

/-- C3 counterexample: a Royal Flush and a king-high Straight Flush carry
distinct numeric category ranks (10 vs 9), refuting "equal numeric rank to
Straight Flush". -/
theorem c3_counterexample :
    (HandEvaluator.calculate_hand_details
        (sortByRankDesc [⟨"A", "♠"⟩, ⟨"K", "♠"⟩, ⟨"Q", "♠"⟩, ⟨"J", "♠"⟩, ⟨"T", "♠"⟩])).2.1 = 10 ∧
    (HandEvaluator.calculate_hand_details
        (sortByRankDesc [⟨"K", "♥"⟩, ⟨"Q", "♥"⟩, ⟨"J", "♥"⟩, ⟨"T", "♥"⟩, ⟨"9", "♥"⟩])).2.1 = 9 ∧
    HandEvaluator.HAND_RANKINGS "ROYAL_FLUSH" ≠ HandEvaluator.HAND_RANKINGS "STRAIGHT_FLUSH" := by
  decide

/-- C3 amended: a Royal Flush is reported under a distinct name AND a
distinct, higher numeric rank (10 vs 9); `compare_hands` therefore orders
a Royal Flush above a lower straight flush already at the category-rank
comparison (kickers are consulted only on equal ranks), as the concrete
comparison shows. -/
theorem c3_royal_flush_distinct_rank :
    (HandEvaluator.HAND_RANKINGS "ROYAL_FLUSH" = 10 ∧
      HandEvaluator.HAND_RANKINGS "STRAIGHT_FLUSH" = 9) ∧
    (∀ h1 h2 : HandEvaluator.HandResult, h1.2.2.1 > h2.2.2.1 →
      HandEvaluator.compare_hands h1 h2 = 1) ∧
    (HandEvaluator.calculate_hand_details
        (sortByRankDesc [⟨"A", "♠"⟩, ⟨"K", "♠"⟩, ⟨"Q", "♠"⟩, ⟨"J", "♠"⟩, ⟨"T", "♠"⟩]) =
      ("ROYAL_FLUSH", 10, [14, 13, 12, 11, 10]) ∧
      HandEvaluator.calculate_hand_details
        (sortByRankDesc [⟨"K", "♥"⟩, ⟨"Q", "♥"⟩, ⟨"J", "♥"⟩, ⟨"T", "♥"⟩, ⟨"9", "♥"⟩]) =
      ("STRAIGHT_FLUSH", 9, [13, 12, 11, 10, 9])) := by
  refine ⟨by decide, ?_, by decide⟩
  intro h1 h2 hgt
  simp only [HandEvaluator.compare_hands]
  rw [if_pos hgt]

/-- Witness for the hypothesis-bearing conjunct of C3's amended theorem:
the Royal Flush beats the king-high Straight Flush with `compare_hands`
returning 1 on their evaluated tuples. -/
theorem c3_royal_flush_distinct_rank_witness :
    (("ROYAL_FLUSH", ([] : List Card), (10 : Int), ([14, 13, 12, 11, 10] : List Int)).2.2.1 >
      ("STRAIGHT_FLUSH", ([] : List Card), (9 : Int), ([13, 12, 11, 10, 9] : List Int)).2.2.1) ∧
    HandEvaluator.compare_hands
      ("ROYAL_FLUSH", ([] : List Card), (10 : Int), ([14, 13, 12, 11, 10] : List Int))
      ("STRAIGHT_FLUSH", ([] : List Card), (9 : Int), ([13, 12, 11, 10, 9] : List Int)) = 1 :=
  ⟨by decide, c3_royal_flush_distinct_rank.2.1 _ _ (by decide)⟩

/-! ## Claim C7: allowed actions facing a bet -/

/-- C7: a non-all-in player with chips facing a bet may always fold and
call `min(stack, bet_to_match − current_bet)`; a raise is offered exactly
when the stack strictly exceeds that call amount; a full raise has minimum
total `current_bet_to_match + max(big_blind, last_raise_increment)` and
maximum the player's all-in total; if the all-in total cannot reach the
full-raise minimum but exceeds `current_bet_to_match`, the only raise
offered is the all-in total itself. -/
theorem c7_allowed_actions_facing_bet (player : Player) (gs : GameState)
    (h_allin : player.is_all_in = false) (h_stack : player.stack ≠ 0)
    (h_facing : player.current_bet < gs.current_bet_to_match)
    (hbb : 0 < gs.big_blind) (hlra : 0 ≤ gs.last_raise_amount) :
    (TexasHoldemRules.get_allowed_actions player gs).fold = true ∧
    (TexasHoldemRules.get_allowed_actions player gs).call =
      some (min player.stack (gs.current_bet_to_match - player.current_bet)) ∧
    ((TexasHoldemRules.get_allowed_actions player gs).raiseOpt.isSome = true ↔
      player.stack > min player.stack (gs.current_bet_to_match - player.current_bet)) ∧
    (player.current_bet + player.stack ≥
        gs.current_bet_to_match + max gs.big_blind gs.last_raise_amount →
      (TexasHoldemRules.get_allowed_actions player gs).raiseOpt =
        some (gs.current_bet_to_match + max gs.big_blind gs.last_raise_amount,
          player.current_bet + player.stack)) ∧
    (player.current_bet + player.stack <
        gs.current_bet_to_match + max gs.big_blind gs.last_raise_amount →
      player.current_bet + player.stack > gs.current_bet_to_match →
      (TexasHoldemRules.get_allowed_actions player gs).raiseOpt =
        some (player.current_bet + player.stack, player.current_bet + player.stack)) := by
  have hincr : max gs.big_blind
      (if gs.last_raise_amount > 0 then gs.last_raise_amount else gs.big_blind) =
      max gs.big_blind gs.last_raise_amount := by
    split
    · rfl
    · rename_i h
      omega
  unfold TexasHoldemRules.get_allowed_actions
  rw [if_neg (by simp [h_allin, h_stack])]
  rw [if_neg (by omega)]
  by_cases hcanraise : player.stack > gs.current_bet_to_match - player.current_bet
  · rw [if_pos hcanraise, hincr]
    by_cases hfull : player.current_bet + player.stack ≥
        gs.current_bet_to_match + max gs.big_blind gs.last_raise_amount
    · rw [if_pos hfull]
      refine ⟨rfl, by simp [min_comm], ?_, fun _ => rfl, fun hlt _ => absurd hfull (by omega)⟩
      simp only [Option.isSome_some, true_iff]
      omega
    · rw [if_neg hfull]
      by_cases hincomplete : player.current_bet + player.stack > gs.current_bet_to_match
      · rw [if_pos hincomplete]
        refine ⟨rfl, by simp [min_comm], ?_, fun hge => absurd hge hfull, fun _ _ => rfl⟩
        simp only [Option.isSome_some, true_iff]
        omega
      · rw [if_neg hincomplete]
        exact ⟨rfl, by simp [min_comm], by constructor <;> omega, fun hge => absurd hge hfull,
          fun _ hgt => absurd hgt hincomplete⟩
  · rw [if_neg hcanraise]
    refine ⟨rfl, by simp [min_comm], by constructor <;> [simp; omega], ?_, ?_⟩
    · intro hge
      exfalso
      omega
    · intro _ hgt
      exfalso
      omega

/-- Witness for C7: stack 100, current bet 0 facing 20, blinds 10/20,
no prior raise increment: fold available, call 20 offered, full raise to a
minimum total of 40 and a maximum of 100. -/
theorem c7_allowed_actions_facing_bet_witness :
    (TexasHoldemRules.get_allowed_actions
        ⟨"P1", 100, [], 0, false, false⟩
        ⟨[], 0, 0, [], 0, 0, 20, none, 0, "pre-flop", 10, 20, 20, 1, false, none, none⟩).fold
      = true ∧
    (TexasHoldemRules.get_allowed_actions
        ⟨"P1", 100, [], 0, false, false⟩
        ⟨[], 0, 0, [], 0, 0, 20, none, 0, "pre-flop", 10, 20, 20, 1, false, none, none⟩).call
      = some (min (100 : Int) (20 - 0)) ∧
    (TexasHoldemRules.get_allowed_actions
        ⟨"P1", 100, [], 0, false, false⟩
        ⟨[], 0, 0, [], 0, 0, 20, none, 0, "pre-flop", 10, 20, 20, 1, false, none, none⟩).raiseOpt
      = some (20 + max 20 0, 0 + 100) := by
  have h := c7_allowed_actions_facing_bet
    ⟨"P1", 100, [], 0, false, false⟩
    ⟨[], 0, 0, [], 0, 0, 20, none, 0, "pre-flop", 10, 20, 20, 1, false, none, none⟩
    (by decide) (by decide) (by decide) (by decide) (by decide)
  exact ⟨h.1, h.2.1, h.2.2.2.1 (by decide)⟩

/-! ## Claim C4: pot split arithmetic in `determine_winners` -/

namespace TexasHoldemRules

theorem bumpAmount_length (l : List WinnerResult) (i : Nat) :
    (bumpAmount l i).length = l.length := by
  induction l generalizing i with
  | nil => rfl
  | cons w ws ih =>
    cases i with
    | zero => rfl
    | succ n => simp [bumpAmount, ih]

theorem bumpAmount_amount (l : List WinnerResult) (i j : Nat) (d : WinnerResult) :
    ((bumpAmount l i).getD j d).amount_won =
      (l.getD j d).amount_won + (if j = i ∧ j < l.length then 1 else 0) := by
  induction l generalizing i j with
  | nil => simp [bumpAmount]
  | cons w ws ih =>
    cases i with
    | zero =>
      cases j with
      | zero => simp [bumpAmount, List.getD]
      | succ m => simp [bumpAmount, List.getD]
    | succ n =>
      cases j with
      | zero => simp [bumpAmount, List.getD]
      | succ m =>
        simp only [bumpAmount, List.getD_cons_succ, List.length_cons]
        rw [ih]
        congr 1
        by_cases h1 : m = n ∧ m < ws.length
        · rw [if_pos h1, if_pos (by omega)]
        · rw [if_neg h1, if_neg (by omega)]

theorem bumpAmount_sum (l : List WinnerResult) (i : Nat) (h : i < l.length) :
    ((bumpAmount l i).map WinnerResult.amount_won).sum =
      (l.map WinnerResult.amount_won).sum + 1 := by
  induction l generalizing i with
  | nil => simp at h
  | cons w ws ih =>
    cases i with
    | zero => simp [bumpAmount]; omega
    | succ n =>
      simp only [bumpAmount, List.map_cons, List.sum_cons]
      rw [ih n (by simpa using h)]
      omega

theorem distributeRemainder_length (l : List WinnerResult) (r : Nat) :
    (distributeRemainder l r).length = l.length := by
  induction r with
  | zero => rfl
  | succ n ih =>
    unfold distributeRemainder
    rw [List.range_succ, List.foldl_append]
    show (bumpAmount (distributeRemainder l n) _).length = l.length
    rw [bumpAmount_length]
    exact ih

theorem distributeRemainder_succ (l : List WinnerResult) (n : Nat) :
    distributeRemainder l (n + 1) =
      bumpAmount (distributeRemainder l n) (n % l.length) := by
  have h : distributeRemainder l (n + 1) =
      bumpAmount (distributeRemainder l n) (n % (distributeRemainder l n).length) := by
    unfold distributeRemainder
    rw [List.range_succ, List.foldl_append]
    rfl
  rw [h, distributeRemainder_length]

theorem distributeRemainder_amount (l : List WinnerResult) (r j : Nat) (d : WinnerResult)
    (hr : r ≤ l.length) :
    ((distributeRemainder l r).getD j d).amount_won =
      (l.getD j d).amount_won + (if j < r then 1 else 0) := by
  induction r with
  | zero => simp [distributeRemainder]
  | succ n ih =>
    rw [distributeRemainder_succ, bumpAmount_amount, distributeRemainder_length,
      ih (by omega)]
    have hn : n % l.length = n := Nat.mod_eq_of_lt (by omega)
    rw [hn]
    split_ifs <;> omega

theorem distributeRemainder_sum (l : List WinnerResult) (r : Nat) (hr : r ≤ l.length) :
    ((distributeRemainder l r).map WinnerResult.amount_won).sum =
      (l.map WinnerResult.amount_won).sum + r := by
  induction r with
  | zero => simp [distributeRemainder]
  | succ n ih =>
    rw [distributeRemainder_succ, bumpAmount_sum _ _ (by
        rw [distributeRemainder_length]
        exact Nat.lt_of_lt_of_le (Nat.mod_lt _ (by omega)) (Nat.le_refl _)),
      ih (by omega)]
    push_cast
    ring

theorem winnerMap_length (winners : List PlayerHandDetail) (amt : Int) :
    (winners.map (fun w =>
      (⟨w.player_obj.player_id, amt, w.hand_name, w.best_cards⟩ : WinnerResult))).length =
    winners.length := List.length_map _ _

theorem winnerMap_amount (winners : List PlayerHandDetail) (amt : Int) (i : Nat)
    (d : WinnerResult) (h : i < winners.length) :
    ((winners.map (fun w =>
        (⟨w.player_obj.player_id, amt, w.hand_name, w.best_cards⟩ : WinnerResult))).getD i d).amount_won =
      amt := by
  induction winners generalizing i with
  | nil => simp at h
  | cons w ws ih =>
    cases i with
    | zero => rfl
    | succ n => exact ih n (by simpa using h)

theorem winnerMap_sum (winners : List PlayerHandDetail) (amt : Int) :
    ((winners.map (fun w =>
        (⟨w.player_obj.player_id, amt, w.hand_name, w.best_cards⟩ : WinnerResult))).map
      WinnerResult.amount_won).sum = winners.length * amt := by
  induction winners with
  | nil => simp
  | cons w ws ih =>
    simp only [List.map_cons, List.sum_cons, ih, List.length_cons]
    push_cast
    ring

theorem zipCompare_self (k : List Int) : HandEvaluator.zipCompareKickers k k = 0 := by
  induction k with
  | nil => rfl
  | cons x xs ih => simp [HandEvaluator.zipCompareKickers, ih]

theorem compare_hands_self (h : HandEvaluator.HandResult) :
    HandEvaluator.compare_hands h h = 0 := by
  simp only [HandEvaluator.compare_hands]
  rw [if_neg (lt_irrefl _), if_neg (lt_irrefl _)]
  exact zipCompare_self _

end TexasHoldemRules

/-- C4: in every settlement with at least one non-folded player,
`determine_winners` returns a non-empty list of winners in which the
winner at position `i` receives `⌊P / W⌋` chips plus one extra chip
exactly when `i < P mod W` (the remainder is handed out one chip at a
time to the first winners in the list's fixed order), so the amounts sum
to exactly the pot `P` and any two winners differ by at most one chip. -/
theorem c4_pot_split (gs : GameState)
    (hactive : gs.players.filter (fun p => !p.is_folded) ≠ []) :
    TexasHoldemRules.determine_winners gs ≠ [] ∧
    ((TexasHoldemRules.determine_winners gs).map WinnerResult.amount_won).sum =
      gs.pot_size + gs.current_round_pot ∧
    (∀ i, i < (TexasHoldemRules.determine_winners gs).length →
      ((TexasHoldemRules.determine_winners gs).getD i ⟨"", 0, "", []⟩).amount_won =
        Int.fdiv (gs.pot_size + gs.current_round_pot)
            ((TexasHoldemRules.determine_winners gs).length : Int) +
          (if (i : Int) < Int.fmod (gs.pot_size + gs.current_round_pot)
              ((TexasHoldemRules.determine_winners gs).length : Int) then 1 else 0)) ∧
    (∀ w1 ∈ TexasHoldemRules.determine_winners gs,
      ∀ w2 ∈ TexasHoldemRules.determine_winners gs,
        w1.amount_won - w2.amount_won ≤ 1) := by
  rcases hfa : gs.players.filter (fun p => !p.is_folded) with _ | ⟨w1, _ | ⟨w2, rest⟩⟩
  · exact absurd hfa hactive
  · have hres : TexasHoldemRules.determine_winners gs =
        [⟨w1.player_id, gs.pot_size + gs.current_round_pot, " uncontested_pot", []⟩] := by
      unfold TexasHoldemRules.determine_winners
      rw [hfa]
    rw [hres]
    refine ⟨by simp, by simp, ?_, ?_⟩
    · intro i hi
      simp only [List.length_singleton] at hi
      interval_cases i
      have h1 : Int.fdiv (gs.pot_size + gs.current_round_pot) 1 =
          gs.pot_size + gs.current_round_pot := by
        rw [Int.fdiv_eq_ediv _ (by norm_num)]
        simp
      have h2 : Int.fmod (gs.pot_size + gs.current_round_pot) 1 = 0 := by
        rw [Int.fmod_eq_emod _ (by norm_num)]
        simp [Int.emod_one]
      simp [h1, h2]
    · intro a ha b hb
      simp only [List.mem_singleton] at ha hb
      subst ha; subst hb
      omega
  · -- showdown among at least two active players
    have hsortlen : (pySort (fun a b =>
        !(TexasHoldemRules.rankKickersLt (a.rank_val, a.kickers) (b.rank_val, b.kickers)))
        ((w1 :: w2 :: rest).map (TexasHoldemRules.playerDetail gs))).length =
        ((w1 :: w2 :: rest).map (TexasHoldemRules.playerDetail gs)).length :=
      (pySort_perm _ _).length_eq
    rcases hsorted : pySort (fun a b =>
        !(TexasHoldemRules.rankKickersLt (a.rank_val, a.kickers) (b.rank_val, b.kickers)))
        ((w1 :: w2 :: rest).map (TexasHoldemRules.playerDetail gs)) with _ | ⟨hd, tl⟩
    · rw [hsorted] at hsortlen
      simp at hsortlen
    · have hpred : (HandEvaluator.compare_hands (TexasHoldemRules.detailsTuple hd)
          (TexasHoldemRules.detailsTuple hd) == 0) = true := by
        simp [TexasHoldemRules.compare_hands_self]
      have htw : List.takeWhile (fun p =>
          HandEvaluator.compare_hands (TexasHoldemRules.detailsTuple p)
            (TexasHoldemRules.detailsTuple hd) == 0) (hd :: tl) =
          hd :: List.takeWhile (fun p =>
            HandEvaluator.compare_hands (TexasHoldemRules.detailsTuple p)
              (TexasHoldemRules.detailsTuple hd) == 0) tl :=
        List.takeWhile_cons_of_pos hpred
      have hres : TexasHoldemRules.determine_winners gs =
          (let winners := (hd :: tl).takeWhile (fun p =>
              HandEvaluator.compare_hands (TexasHoldemRules.detailsTuple p)
                (TexasHoldemRules.detailsTuple hd) == 0)
           let total := gs.pot_size + gs.current_round_pot
           let amount_per_winner :=
             if winners.isEmpty then 0 else Int.fdiv total winners.length
           let winner_results := winners.map (fun w =>
             (⟨w.player_obj.player_id, amount_per_winner, w.hand_name, w.best_cards⟩ :
               WinnerResult))
           let remainder :=
             if winners.isEmpty then 0 else Int.fmod total winners.length
           if remainder > 0 ∧ ¬ winner_results.isEmpty then
             TexasHoldemRules.distributeRemainder winner_results remainder.toNat
           else winner_results) := by
        unfold TexasHoldemRules.determine_winners
        rw [hfa]
        simp only [hsorted, List.headD_cons]
      rw [hres]
      simp only [htw, List.isEmpty_cons, Bool.false_eq_true, if_false]
      set tw := List.takeWhile (fun p =>
        HandEvaluator.compare_hands (TexasHoldemRules.detailsTuple p)
          (TexasHoldemRules.detailsTuple hd) == 0) tl with htwdef
      set P := gs.pot_size + gs.current_round_pot with hPdef
      have hlenI : (0 : Int) < ((hd :: tw).length : Int) := by
        simp
      have hlenNe : ((hd :: tw).length : Int) ≠ 0 := by omega
      have hremnn : 0 ≤ Int.fmod P ((hd :: tw).length : Int) := by
        rw [Int.fmod_eq_emod _ (by omega)]
        exact Int.emod_nonneg _ hlenNe
      have hremlt : Int.fmod P ((hd :: tw).length : Int) < ((hd :: tw).length : Int) :=
        Int.fmod_lt_of_pos _ hlenI
      have hsum0 : ((hd :: tw).length : Int) *
          Int.fdiv P ((hd :: tw).length : Int) +
          Int.fmod P ((hd :: tw).length : Int) = P := Int.fdiv_add_fmod _ _
      have htn : (Int.fmod P ((hd :: tw).length : Int)).toNat ≤
          ((hd :: tw).map (fun w =>
            (⟨w.player_obj.player_id, Int.fdiv P ((hd :: tw).length : Int),
              w.hand_name, w.best_cards⟩ : WinnerResult))).length := by
        rw [List.length_map]
        omega
      have hwrne2 : ¬ (((hd :: tw).map (fun w =>
          (⟨w.player_obj.player_id, Int.fdiv P ((hd :: tw).length : Int),
            w.hand_name, w.best_cards⟩ : WinnerResult))).isEmpty = true) := by
        simp
      by_cases hcase : Int.fmod P ((hd :: tw).length : Int) > 0
      · rw [if_pos (And.intro hcase hwrne2)]
        have hreslen : (TexasHoldemRules.distributeRemainder ((hd :: tw).map (fun w =>
            (⟨w.player_obj.player_id, Int.fdiv P ((hd :: tw).length : Int),
              w.hand_name, w.best_cards⟩ : WinnerResult)))
            (Int.fmod P ((hd :: tw).length : Int)).toNat).length = (hd :: tw).length := by
          rw [TexasHoldemRules.distributeRemainder_length, List.length_map]
        refine ⟨?_, ?_, ?_, ?_⟩
        · intro hnil
          rw [← List.length_eq_zero, hreslen] at hnil
          simp at hnil
        · rw [TexasHoldemRules.distributeRemainder_sum _ _ htn,
            TexasHoldemRules.winnerMap_sum, Int.toNat_of_nonneg hremnn]
          exact hsum0
        · rw [hreslen]
          intro i hi
          rw [TexasHoldemRules.distributeRemainder_amount _ _ _ _ htn,
            TexasHoldemRules.winnerMap_amount _ _ _ _ hi]
          by_cases h2 : (i : Int) < Int.fmod P ((hd :: tw).length : Int)
          · rw [if_pos (by omega), if_pos h2]
          · rw [if_neg (by omega), if_neg h2]
        · intro a ha b hb
          have hgen : ∀ c ∈ TexasHoldemRules.distributeRemainder ((hd :: tw).map (fun w =>
              (⟨w.player_obj.player_id, Int.fdiv P ((hd :: tw).length : Int),
                w.hand_name, w.best_cards⟩ : WinnerResult)))
              (Int.fmod P ((hd :: tw).length : Int)).toNat,
              c.amount_won = Int.fdiv P ((hd :: tw).length : Int) ∨
              c.amount_won = Int.fdiv P ((hd :: tw).length : Int) + 1 := by
            intro c hc
            rcases List.getElem_of_mem hc with ⟨i, hilen, hgi⟩
            have hamt := TexasHoldemRules.distributeRemainder_amount ((hd :: tw).map (fun w =>
              (⟨w.player_obj.player_id, Int.fdiv P ((hd :: tw).length : Int),
                w.hand_name, w.best_cards⟩ : WinnerResult)))
              (Int.fmod P ((hd :: tw).length : Int)).toNat i ⟨"", 0, "", []⟩ htn
            rw [List.getD_eq_getElem _ _ hilen, hgi] at hamt
            rw [TexasHoldemRules.winnerMap_amount _ _ _ _ (by
              rw [hreslen] at hilen
              exact hilen)] at hamt
            split_ifs at hamt
            · right; omega
            · left; omega
          rcases hgen a ha with h1 | h1 <;> rcases hgen b hb with h2 | h2 <;> omega
      · rw [if_neg (fun hand => hcase hand.1)]
        have hrem0 : Int.fmod P ((hd :: tw).length : Int) = 0 := by omega
        refine ⟨?_, ?_, ?_, ?_⟩
        · simp
        · rw [TexasHoldemRules.winnerMap_sum]
          rw [hrem0] at hsum0
          simpa using hsum0
        · rw [List.length_map]
          intro i hi
          rw [TexasHoldemRules.winnerMap_amount _ _ _ _ hi, hrem0]
          rw [if_neg (by omega)]
          omega
        · intro a ha b hb
          have hgen : ∀ c ∈ (hd :: tw).map (fun w =>
              (⟨w.player_obj.player_id, Int.fdiv P ((hd :: tw).length : Int),
                w.hand_name, w.best_cards⟩ : WinnerResult)),
              c.amount_won = Int.fdiv P ((hd :: tw).length : Int) := by
            intro c hc
            rcases List.getElem_of_mem hc with ⟨i, hilen, hgi⟩
            have hamt := TexasHoldemRules.winnerMap_amount (hd :: tw)
              (Int.fdiv P ((hd :: tw).length : Int)) i (⟨"", 0, "", []⟩ : WinnerResult)
              (by rw [List.length_map] at hilen; exact hilen)
            rw [List.getD_eq_getElem _ _ hilen, hgi] at hamt
            exact hamt
          rw [hgen a ha, hgen b hb]
          omega

/-- Witness for C4: with three tied winners (the board is a royal flush)
and pot 100, the paid amounts are exactly [34, 33, 33] — each winner gets
33 and exactly one winner (the first in the fixed order) gets the extra
chip, summing to 100. -/
theorem c4_pot_split_witness :
    c4TieState.players.filter (fun p => !p.is_folded) ≠ [] ∧
    (TexasHoldemRules.determine_winners c4TieState).map WinnerResult.amount_won =
      [34, 33, 33] ∧
    (TexasHoldemRules.determine_winners c4TieState ≠ [] ∧
      ((TexasHoldemRules.determine_winners c4TieState).map WinnerResult.amount_won).sum =
        c4TieState.pot_size + c4TieState.current_round_pot ∧
      (∀ i, i < (TexasHoldemRules.determine_winners c4TieState).length →
        ((TexasHoldemRules.determine_winners c4TieState).getD i ⟨"", 0, "", []⟩).amount_won =
          Int.fdiv (c4TieState.pot_size + c4TieState.current_round_pot)
              ((TexasHoldemRules.determine_winners c4TieState).length : Int) +
            (if (i : Int) < Int.fmod (c4TieState.pot_size + c4TieState.current_round_pot)
                ((TexasHoldemRules.determine_winners c4TieState).length : Int) then 1 else 0)) ∧
      (∀ w1 ∈ TexasHoldemRules.determine_winners c4TieState,
        ∀ w2 ∈ TexasHoldemRules.determine_winners c4TieState,
          w1.amount_won - w2.amount_won ≤ 1)) :=
  ⟨by decide, by decide, c4_pot_split c4TieState (by decide)⟩

/-! ## Claim C6: heads-up blind posting (code bug evidence) -/

/-- C6 evidence: on a fresh heads-up table with the dealer at seat 0 and
blinds 10/20, `_post_blinds` takes its main path and posts the small
blind from seat 1 — the player to the dealer's left — and the big blind
from the dealer (seat 0), contradicting the documented heads-up rule that
the dealer posts the small blind (the repository's own skipped test
`test_post_blinds_2_players` asserts the dealer posts 10).  The pre-flop
betting order still starts at the dealer, so the big blind acts first,
and the scripted street (dealer checks, other seat completes, dealer
checks again) closes only after 3 actions. -/
theorem c6_heads_up_blinds_swapped :
    (GameEngine.postBlinds c6HeadsUpState).gs.small_blind_player_id = some "P2" ∧
    (GameEngine.postBlinds c6HeadsUpState).gs.big_blind_player_id = some "P1" ∧
    ((GameEngine.postBlinds c6HeadsUpState).gs.players.map
      (fun p => (p.player_id, p.current_bet))) = [("P1", 20), ("P2", 10)] ∧
    GameEngine.get_betting_order_idx (GameEngine.postBlinds c6HeadsUpState).gs.players 0
      "pre-flop" = [0, 1] ∧
    (GameEngine.run_betting_round (GameEngine.postBlinds c6HeadsUpState)
      [⟨"check", 0, "P1"⟩, ⟨"call", 0, "P2"⟩, ⟨"check", 0, "P1"⟩] 20).map
      (fun r => (r.2.2, r.2.1, r.1.gs.pot_size)) =
      some (["P1", "P2", "P1"], true, 40) := by decide

/-! ## Claim C8: illegal actions are coerced, not always force-folded -/

/-- C8 counterexample: a seat with stack 10 facing a 20-chip bet proposes
an (illegal) raise to 40.  The legal set is only {fold, call 10}; instead
of force-folding, the engine silently rewrites the action into a call of
10 — the seat ends not folded, all-in for its 10 chips, and the action
object now reads "call". -/
theorem c8_counterexample :
    (TexasHoldemRules.get_allowed_actions
        (c8ShortStack.gs.players.getD 0 defaultPlayer) c8ShortStack.gs).raiseOpt
      = none ∧
    (GameEngine.processPlayerAction c8ShortStack 0 ⟨"raise", 40, "P1"⟩
      (TexasHoldemRules.get_allowed_actions
        (c8ShortStack.gs.players.getD 0 defaultPlayer) c8ShortStack.gs)).2.1 = true ∧
    ((GameEngine.processPlayerAction c8ShortStack 0 ⟨"raise", 40, "P1"⟩
      (TexasHoldemRules.get_allowed_actions
        (c8ShortStack.gs.players.getD 0 defaultPlayer) c8ShortStack.gs)).1.gs.players.getD 0
        defaultPlayer).is_folded = false ∧
    (GameEngine.processPlayerAction c8ShortStack 0 ⟨"raise", 40, "P1"⟩
      (TexasHoldemRules.get_allowed_actions
        (c8ShortStack.gs.players.getD 0 defaultPlayer) c8ShortStack.gs)).2.2.type
      = "call" ∧
    ((GameEngine.processPlayerAction c8ShortStack 0 ⟨"raise", 40, "P1"⟩
      (TexasHoldemRules.get_allowed_actions
        (c8ShortStack.gs.players.getD 0 defaultPlayer) c8ShortStack.gs)).1.gs.players.getD 0
        defaultPlayer).current_bet = 10 := by decide

/-- C8 amended: when the proposed action is outside the legal set, the
engine first tries to coerce it — an illegal bet becomes a check when
check is legal, an illegal raise becomes a call of the offered call
amount when call is legal — and only otherwise force-folds the seat
(reporting failure, without folding, in the impossible case that even
fold is unavailable); processing always returns without crashing. -/
theorem c8_illegal_action_coerced (st : GameEngine.EngineSt) (pi : Nat)
    (action : Events.Action) (allowed : TexasHoldemRules.AllowedActions)
    (hnot : GameEngine.actionTypeAllowed allowed action.type = false) :
    (action.type = "bet" → allowed.check = true →
      GameEngine.processPlayerAction st pi action allowed =
        GameEngine.processDispatch st pi { action with type := "check" } allowed) ∧
    (action.type = "raise" → allowed.call.isSome = true →
      GameEngine.processPlayerAction st pi action allowed =
        GameEngine.processDispatch st pi
          { action with type := "call", amount := allowed.call.getD 0 } allowed) ∧
    (¬ (action.type = "bet" ∧ allowed.check = true) →
      ¬ (action.type = "raise" ∧ allowed.call.isSome = true) →
      allowed.fold = true →
      GameEngine.processPlayerAction st pi action allowed =
        (⟨{ st.gs with players := st.gs.players.set pi (st.gs.players.getD pi defaultPlayer).fold }, st.active_round_players⟩, true, action)) ∧
    (¬ (action.type = "bet" ∧ allowed.check = true) →
      ¬ (action.type = "raise" ∧ allowed.call.isSome = true) →
      allowed.fold = false →
      GameEngine.processPlayerAction st pi action allowed = (st, false, action)) := by
  unfold GameEngine.processPlayerAction
  rw [hnot]
  simp only [Bool.false_eq_true, if_false]
  refine ⟨?_, ?_, ?_, ?_⟩
  · intro htype hchk
    rw [if_pos (by simp [htype, hchk])]
  · intro htype hcall
    by_cases hbet : action.type = "bet" ∧ allowed.check = true
    · rw [htype] at hbet
      simp at hbet
    · rw [if_neg (by simpa using fun h1 h2 => hbet ⟨by simpa using h1, h2⟩)]
      rw [if_pos (by simp [htype, hcall])]
  · intro h1 h2 hfold
    have hb1 : ¬ (((action.type == "bet") && allowed.check) = true) := by
      simp only [Bool.and_eq_true, beq_iff_eq]
      rintro ⟨ha, hb⟩
      exact h1 ⟨ha, hb⟩
    have hr1 : ¬ (((action.type == "raise") && allowed.call.isSome) = true) := by
      simp only [Bool.and_eq_true, beq_iff_eq]
      rintro ⟨ha, hb⟩
      exact h2 ⟨ha, hb⟩
    rw [if_neg hb1, if_neg hr1, if_pos hfold]
  · intro h1 h2 hfold
    have hb1 : ¬ (((action.type == "bet") && allowed.check) = true) := by
      simp only [Bool.and_eq_true, beq_iff_eq]
      rintro ⟨ha, hb⟩
      exact h1 ⟨ha, hb⟩
    have hr1 : ¬ (((action.type == "raise") && allowed.call.isSome) = true) := by
      simp only [Bool.and_eq_true, beq_iff_eq]
      rintro ⟨ha, hb⟩
      exact h2 ⟨ha, hb⟩
    rw [if_neg hb1, if_neg hr1, if_neg (by simp [hfold])]

/-- Witness for C8's amended theorem: the short-stack raise is coerced to
an all-in call (same scenario as the counterexample). -/
theorem c8_illegal_action_coerced_witness :
    GameEngine.actionTypeAllowed
      (TexasHoldemRules.get_allowed_actions
        (c8ShortStack.gs.players.getD 0 defaultPlayer) c8ShortStack.gs) "raise" = false ∧
    GameEngine.processPlayerAction c8ShortStack 0 ⟨"raise", 40, "P1"⟩
      (TexasHoldemRules.get_allowed_actions
        (c8ShortStack.gs.players.getD 0 defaultPlayer) c8ShortStack.gs) =
    GameEngine.processDispatch c8ShortStack 0 ⟨"call", 10, "P1"⟩
      (TexasHoldemRules.get_allowed_actions
        (c8ShortStack.gs.players.getD 0 defaultPlayer) c8ShortStack.gs) := by
  refine ⟨by decide, ?_⟩
  have h := (c8_illegal_action_coerced c8ShortStack 0 ⟨"raise", 40, "P1"⟩
    (TexasHoldemRules.get_allowed_actions
      (c8ShortStack.gs.players.getD 0 defaultPlayer) c8ShortStack.gs)
    (by decide)).2.1 rfl (by decide)
  rw [h]
  decide

/-! ## Claim C10: chip conservation -/

theorem sum_map_set (f : Player → Int) (l : List Player) (i : Nat) (p : Player)
    (h : i < l.length) :
    ((l.set i p).map f).sum = (l.map f).sum - f (l.getD i defaultPlayer) + f p := by
  induction l generalizing i with
  | nil => simp at h
  | cons a t ih =>
    cases i with
    | zero => simp [List.set]; ring
    | succ n =>
      simp only [List.set, List.map_cons, List.sum_cons, List.getD_cons_succ]
      rw [ih n (by simpa using h)]
      ring

theorem getD_set_self (l : List Player) (i : Nat) (x d : Player)
    (h : i < l.length) :
    (l.set i x).getD i d = x := by
  induction l generalizing i with
  | nil => simp at h
  | cons a t ih =>
    cases i with
    | zero => rfl
    | succ n =>
      simp only [List.set, List.getD_cons_succ]
      exact ih n (by simpa using h)

set_option maxHeartbeats 4000000 in
/-- `_process_player_action`'s dispatch body conserves
stacks + pot + street pot. -/
theorem processDispatch_totalChips (st : GameEngine.EngineSt) (pi : Nat)
    (action : Events.Action) (allowed : TexasHoldemRules.AllowedActions)
    (h : pi < st.gs.players.length) :
    totalChips (GameEngine.processDispatch st pi action allowed).1.gs =
      totalChips st.gs := by
  simp only [GameEngine.processDispatch]
  split_ifs <;>
    simp only [totalChips, List.set_set] <;>
    rw [sum_map_set Player.stack st.gs.players pi _ h] <;>
    simp only [getD_set_self _ _ _ _ h, Player.place_bet, Player.fold] <;>
    omega

/-- `_process_player_action` (membership handling, substitutions, forced
fold included) conserves stacks + pot + street pot. -/
theorem processPlayerAction_totalChips (st : GameEngine.EngineSt) (pi : Nat)
    (action : Events.Action) (allowed : TexasHoldemRules.AllowedActions)
    (h : pi < st.gs.players.length) :
    totalChips (GameEngine.processPlayerAction st pi action allowed).1.gs =
      totalChips st.gs := by
  simp only [GameEngine.processPlayerAction]
  split_ifs
  · exact processDispatch_totalChips _ _ _ _ h
  · exact processDispatch_totalChips _ _ _ _ h
  · exact processDispatch_totalChips _ _ _ _ h
  · simp only [totalChips]
    rw [sum_map_set Player.stack st.gs.players pi _ h]
    simp only [Player.fold]
    omega
  · rfl

/-- C10: `place_bet` moves exactly `min(amount, stack)` from the stack to
`current_bet` (and reports it), a nonnegative stack stays nonnegative, and
both `_process_player_action` (any action type, substitutions and forced
folds included) and the street-close fold of `current_round_pot` into
`pot_size` leave stacks + pot_size + current_round_pot unchanged. -/
theorem c10_chip_conservation (p : Player) (amount : Int)
    (st : GameEngine.EngineSt) (pi : Nat) (action : Events.Action)
    (allowed : TexasHoldemRules.AllowedActions)
    (hpi : pi < st.gs.players.length) (hst : 0 ≤ p.stack) :
    ((p.place_bet amount).2 = min amount p.stack ∧
     (p.place_bet amount).1.stack = p.stack - min amount p.stack ∧
     (p.place_bet amount).1.current_bet = p.current_bet + min amount p.stack ∧
     0 ≤ (p.place_bet amount).1.stack) ∧
    totalChips (GameEngine.processPlayerAction st pi action allowed).1.gs =
      totalChips st.gs ∧
    totalChips (GameEngine.collectRoundPot st.gs) = totalChips st.gs := by
  refine ⟨⟨by simp [Player.place_bet], by simp [Player.place_bet],
      by simp [Player.place_bet], ?_⟩,
    processPlayerAction_totalChips st pi action allowed hpi, ?_⟩
  · simp only [Player.place_bet]
    omega
  · simp only [totalChips, GameEngine.collectRoundPot]
    ring

/-- Witness for C10 at a concrete state: a 10-chip stack betting 40 pays
exactly 10 and its stack stays at 0, and an all-in call through
`_process_player_action` leaves the table total at 10 chips. -/
theorem c10_chip_conservation_witness :
    (0 : Nat) < c8ShortStack.gs.players.length ∧
    (0 : Int) ≤ (10 : Int) ∧
    ((Player.place_bet ⟨"P1", 10, [], 0, false, false⟩ 40).2 = 10 ∧
      totalChips (GameEngine.processPlayerAction c8ShortStack 0 ⟨"call", 0, "P1"⟩
        (TexasHoldemRules.get_allowed_actions
          (c8ShortStack.gs.players.getD 0 defaultPlayer) c8ShortStack.gs)).1.gs =
        totalChips c8ShortStack.gs) := by
  refine ⟨by decide, by decide, ?_, ?_⟩
  · have h := (c10_chip_conservation ⟨"P1", 10, [], 0, false, false⟩ 40 c8ShortStack 0
      ⟨"call", 0, "P1"⟩ (TexasHoldemRules.get_allowed_actions
        (c8ShortStack.gs.players.getD 0 defaultPlayer) c8ShortStack.gs)
      (by decide) (by decide)).1.1
    rw [h]; decide
  · exact (c10_chip_conservation ⟨"P1", 10, [], 0, false, false⟩ 40 c8ShortStack 0
      ⟨"call", 0, "P1"⟩ (TexasHoldemRules.get_allowed_actions
        (c8ShortStack.gs.players.getD 0 defaultPlayer) c8ShortStack.gs)
      (by decide) (by decide)).2.1

/-! ## Claim C5: a bet or raise reopens the action -/

theorem getD_set_ne (l : List Player) (i j : Nat) (x d : Player) (h : i ≠ j) :
    (l.set i x).getD j d = l.getD j d := by
  induction l generalizing i j with
  | nil => rfl
  | cons a t ih =>
    cases i with
    | zero =>
      cases j with
      | zero => exact absurd rfl h
      | succ m => rfl
    | succ n =>
      cases j with
      | zero => rfl
      | succ m =>
        simp only [List.set, List.getD_cons_succ]
        exact ih n m (fun he => h (by rw [he]))

theorem set_of_length_le (l : List Player) (i : Nat) (x : Player)
    (h : l.length ≤ i) : l.set i x = l := by
  induction l generalizing i with
  | nil => rfl
  | cons a t ih =>
    cases i with
    | zero => simp at h
    | succ n =>
      simp only [List.set]
      rw [ih n (by simpa using h)]

theorem place_bet_call_closes (p : Player) (atc : Int) (h : 0 < atc) :
    ((p.place_bet (min p.stack atc)).1).is_all_in = true ∨
    p.current_bet + atc ≤ ((p.place_bet (min p.stack atc)).1).current_bet := by
  simp only [Player.place_bet]
  by_cases hc : p.stack ≤ atc
  · left
    simp
    exact Or.inl (by omega)
  · right
    simp
    omega

set_option maxHeartbeats 4000000 in
theorem processDispatch_getD_cases (st : GameEngine.EngineSt) (pi : Nat)
    (action : Events.Action) (allowed : TexasHoldemRules.AllowedActions) (j : Nat)
    (hbet : action.type ≠ "bet") (hraise : action.type ≠ "raise") :
    (GameEngine.processDispatch st pi action allowed).1.gs.current_bet_to_match =
      st.gs.current_bet_to_match ∧
    ((GameEngine.processDispatch st pi action allowed).1.gs.players.getD j defaultPlayer =
        st.gs.players.getD j defaultPlayer ∨
      ((GameEngine.processDispatch st pi action allowed).1.gs.players.getD j
        defaultPlayer).is_folded = true ∨
      ((GameEngine.processDispatch st pi action allowed).1.gs.players.getD j
        defaultPlayer).is_all_in = true ∨
      st.gs.current_bet_to_match ≤
        ((GameEngine.processDispatch st pi action allowed).1.gs.players.getD j
          defaultPlayer).current_bet) := by
  simp only [GameEngine.processDispatch]
  split_ifs
  -- fold, fix-up applied
  · refine ⟨rfl, ?_⟩
    by_cases hj : j = pi
    · subst hj
      rcases Nat.lt_or_ge j st.gs.players.length with hlen | hlen
      · right; right; left
        simp only [List.set_set, getD_set_self _ _ _ _ hlen]
      · left
        simp only [List.set_set, set_of_length_le _ _ _ hlen]
    · left
      simp only [List.set_set, getD_set_ne _ _ _ _ _ (Ne.symm hj)]
  -- fold, no fix-up
  · refine ⟨rfl, ?_⟩
    by_cases hj : j = pi
    · subst hj
      rcases Nat.lt_or_ge j st.gs.players.length with hlen | hlen
      · right; left
        simp only [getD_set_self _ _ _ _ hlen, Player.fold]
      · left
        simp only [set_of_length_le _ _ _ hlen]
    · left
      simp only [getD_set_ne _ _ _ _ _ (Ne.symm hj)]
  -- check facing a bet (punished fold), fix-up applied
  · refine ⟨rfl, ?_⟩
    by_cases hj : j = pi
    · subst hj
      rcases Nat.lt_or_ge j st.gs.players.length with hlen | hlen
      · right; right; left
        simp only [List.set_set, getD_set_self _ _ _ _ hlen]
      · left
        simp only [List.set_set, set_of_length_le _ _ _ hlen]
    · left
      simp only [List.set_set, getD_set_ne _ _ _ _ _ (Ne.symm hj)]
  -- check facing a bet (punished fold), no fix-up
  · refine ⟨rfl, ?_⟩
    by_cases hj : j = pi
    · subst hj
      rcases Nat.lt_or_ge j st.gs.players.length with hlen | hlen
      · right; left
        simp only [getD_set_self _ _ _ _ hlen, Player.fold]
      · left
        simp only [set_of_length_le _ _ _ hlen]
    · left
      simp only [getD_set_ne _ _ _ _ _ (Ne.symm hj)]
  -- legal check, fix-up applied
  · refine ⟨rfl, ?_⟩
    by_cases hj : j = pi
    · subst hj
      rcases Nat.lt_or_ge j st.gs.players.length with hlen | hlen
      · right; right; left
        simp only [getD_set_self _ _ _ _ hlen]
      · left
        simp only [set_of_length_le _ _ _ hlen]
    · left
      simp only [getD_set_ne _ _ _ _ _ (Ne.symm hj)]
  -- legal check, no fix-up
  · exact ⟨rfl, Or.inl rfl⟩
  -- call with nothing to call, fix-up applied
  · refine ⟨rfl, ?_⟩
    by_cases hj : j = pi
    · subst hj
      rcases Nat.lt_or_ge j st.gs.players.length with hlen | hlen
      · right; right; left
        simp only [getD_set_self _ _ _ _ hlen]
      · left
        simp only [set_of_length_le _ _ _ hlen]
    · left
      simp only [getD_set_ne _ _ _ _ _ (Ne.symm hj)]
  -- call with nothing to call, no fix-up
  · exact ⟨rfl, Or.inl rfl⟩
  -- live call, fix-up applied
  · refine ⟨rfl, ?_⟩
    by_cases hj : j = pi
    · subst hj
      rcases Nat.lt_or_ge j st.gs.players.length with hlen | hlen
      · right; right; left
        simp only [List.set_set, getD_set_self _ _ _ _ hlen]
      · left
        simp only [List.set_set, set_of_length_le _ _ _ hlen]
    · left
      simp only [List.set_set, getD_set_ne _ _ _ _ _ (Ne.symm hj)]
  -- live call, no fix-up
  · rename_i hcall hatc hfix
    refine ⟨rfl, ?_⟩
    by_cases hj : j = pi
    · subst hj
      rcases Nat.lt_or_ge j st.gs.players.length with hlen | hlen
      · simp only [getD_set_self _ _ _ _ hlen]
        rcases place_bet_call_closes (st.gs.players.getD j defaultPlayer)
            (st.gs.current_bet_to_match -
              (st.gs.players.getD j defaultPlayer).current_bet)
            (by omega) with hall | hpaid
        · exact Or.inr (Or.inr (Or.inl hall))
        · exact Or.inr (Or.inr (Or.inr (by omega)))
      · left
        simp only [set_of_length_le _ _ _ hlen]
    · left
      simp only [getD_set_ne _ _ _ _ _ (Ne.symm hj)]
  -- bet branches are excluded by hbet
  · exact absurd (by simpa using ‹(action.type == "bet") = true›) hbet
  · exact absurd (by simpa using ‹(action.type == "bet") = true›) hbet
  · exact absurd (by simpa using ‹(action.type == "bet") = true›) hbet
  · exact absurd (by simpa using ‹(action.type == "bet") = true›) hbet
  -- raise branches are excluded by hraise
  · exact absurd (by simpa using ‹(action.type == "raise") = true›) hraise
  · exact absurd (by simpa using ‹(action.type == "raise") = true›) hraise
  · exact absurd (by simpa using ‹(action.type == "raise") = true›) hraise
  · exact absurd (by simpa using ‹(action.type == "raise") = true›) hraise
  · exact absurd (by simpa using ‹(action.type == "raise") = true›) hraise
  · exact absurd (by simpa using ‹(action.type == "raise") = true›) hraise
  -- unrecognised action type, fix-up applied
  · refine ⟨rfl, ?_⟩
    by_cases hj : j = pi
    · subst hj
      rcases Nat.lt_or_ge j st.gs.players.length with hlen | hlen
      · right; right; left
        simp only [getD_set_self _ _ _ _ hlen]
      · left
        simp only [set_of_length_le _ _ _ hlen]
    · left
      simp only [getD_set_ne _ _ _ _ _ (Ne.symm hj)]
  -- unrecognised action type, no fix-up
  · exact ⟨rfl, Or.inl rfl⟩

theorem processDispatch_action (st : GameEngine.EngineSt) (pi : Nat)
    (action : Events.Action) (allowed : TexasHoldemRules.AllowedActions) :
    (GameEngine.processDispatch st pi action allowed).2.2 = action := rfl

theorem processDispatch_valid (st : GameEngine.EngineSt) (pi : Nat)
    (action : Events.Action) (allowed : TexasHoldemRules.AllowedActions) :
    (GameEngine.processDispatch st pi action allowed).2.1 = true := rfl

theorem processPlayerAction_of_invalid (st : GameEngine.EngineSt) (pi : Nat)
    (action : Events.Action) (allowed : TexasHoldemRules.AllowedActions)
    (h : (GameEngine.processPlayerAction st pi action allowed).2.1 = false) :
    (GameEngine.processPlayerAction st pi action allowed).1 = st := by
  simp only [GameEngine.processPlayerAction] at h ⊢
  split_ifs at h ⊢
  · rw [processDispatch_valid] at h; exact absurd h (by decide)
  · rw [processDispatch_valid] at h; exact absurd h (by decide)
  · rw [processDispatch_valid] at h; exact absurd h (by decide)
  · rfl

theorem processPlayerAction_getD_cases (st : GameEngine.EngineSt) (pi : Nat)
    (action : Events.Action) (allowed : TexasHoldemRules.AllowedActions) (j : Nat)
    (hbet : (GameEngine.processPlayerAction st pi action allowed).2.2.type ≠ "bet")
    (hraise : (GameEngine.processPlayerAction st pi action allowed).2.2.type ≠ "raise") :
    (GameEngine.processPlayerAction st pi action allowed).1.gs.current_bet_to_match =
      st.gs.current_bet_to_match ∧
    ((GameEngine.processPlayerAction st pi action allowed).1.gs.players.getD j
        defaultPlayer = st.gs.players.getD j defaultPlayer ∨
      ((GameEngine.processPlayerAction st pi action allowed).1.gs.players.getD j
        defaultPlayer).is_folded = true ∨
      ((GameEngine.processPlayerAction st pi action allowed).1.gs.players.getD j
        defaultPlayer).is_all_in = true ∨
      st.gs.current_bet_to_match ≤
        ((GameEngine.processPlayerAction st pi action allowed).1.gs.players.getD j
          defaultPlayer).current_bet) := by
  simp only [GameEngine.processPlayerAction] at hbet hraise ⊢
  split_ifs at hbet hraise ⊢
  · rw [processDispatch_action] at hbet hraise
    exact processDispatch_getD_cases st pi action allowed j hbet hraise
  · exact processDispatch_getD_cases st pi _ allowed j (by simp) (by simp)
  · exact processDispatch_getD_cases st pi _ allowed j (by simp) (by simp)
  · refine ⟨rfl, ?_⟩
    by_cases hj : j = pi
    · subst hj
      rcases Nat.lt_or_ge j st.gs.players.length with hlen | hlen
      · right; left
        simp only [getD_set_self _ _ _ _ hlen, Player.fold]
      · left
        simp only [set_of_length_le _ _ _ hlen]
    · left
      simp only [getD_set_ne _ _ _ _ _ (Ne.symm hj)]
  · exact ⟨rfl, Or.inl rfl⟩

theorem processPlayerAction_preserves_matched (st : GameEngine.EngineSt) (pi : Nat)
    (action : Events.Action) (allowed : TexasHoldemRules.AllowedActions)
    (order : List Nat)
    (hbet : (GameEngine.processPlayerAction st pi action allowed).2.2.type ≠ "bet")
    (hraise : (GameEngine.processPlayerAction st pi action allowed).2.2.type ≠ "raise")
    (hINV : eligibleBetsMatched st.gs order) :
    eligibleBetsMatched (GameEngine.processPlayerAction st pi action allowed).1.gs
      order := by
  intro j hj hf ha
  obtain ⟨hbtm, hcases⟩ :=
    processPlayerAction_getD_cases st pi action allowed j hbet hraise
  rw [hbtm]
  rcases hcases with heq | hfold | hall | hge
  · rw [heq] at hf ha ⊢
    exact hINV j hj hf ha
  · rw [hf] at hfold; exact absurd hfold (by decide)
  · rw [ha] at hall; exact absurd hall (by decide)
  · exact hge

theorem breakResult_state (engine : GameEngine.EngineSt) (trace : List String)
    (e2 : GameEngine.EngineSt) (b : Bool) (tr : List String)
    (h : GameEngine.breakResult engine trace = some (e2, b, tr)) :
    e2.gs.players = engine.gs.players ∧
    e2.gs.current_bet_to_match = engine.gs.current_bet_to_match := by
  simp only [GameEngine.breakResult, Option.some.injEq, Prod.mk.injEq] at h
  obtain ⟨he, -, -⟩ := h
  rw [← he]
  exact ⟨rfl, rfl⟩

theorem matched_of_breakResult (engine : GameEngine.EngineSt) (trace : List String)
    (e2 : GameEngine.EngineSt) (b : Bool) (tr : List String) (order : List Nat)
    (h : GameEngine.breakResult engine trace = some (e2, b, tr))
    (hm : eligibleBetsMatched engine.gs order) :
    eligibleBetsMatched e2.gs order := by
  obtain ⟨hp, hb⟩ := breakResult_state engine trace e2 b tr h
  intro j hj hf ha
  rw [hp] at hf ha
  rw [hb, hp]
  exact hm j hj hf ha

theorem matched_of_all (gs : GameState) (order : List Nat)
    (hall : order.all (fun j => (gs.players.getD j defaultPlayer).is_folded ||
      (gs.players.getD j defaultPlayer).is_all_in ||
      decide (¬ (gs.players.getD j defaultPlayer).current_bet <
        gs.current_bet_to_match)) = true) :
    eligibleBetsMatched gs order := by
  intro j hj hf ha
  have hj2 := List.all_eq_true.mp hall j hj
  rw [hf, ha] at hj2
  simpa using hj2

theorem processPlayerAction_preserves_matched2 (st : GameEngine.EngineSt) (pi : Nat)
    (action : Events.Action) (allowed : TexasHoldemRules.AllowedActions)
    (order : List Nat)
    (hc : ¬ (((GameEngine.processPlayerAction st pi action allowed).2.2.type == "bet") ||
      ((GameEngine.processPlayerAction st pi action allowed).2.2.type == "raise")) = true)
    (hINV : eligibleBetsMatched st.gs order) :
    eligibleBetsMatched (GameEngine.processPlayerAction st pi action allowed).1.gs
      order := by
  simp only [Bool.or_eq_true, beq_iff_eq, not_or] at hc
  exact processPlayerAction_preserves_matched st pi action allowed order hc.1 hc.2 hINV

theorem runBettingLoop_closed_matched (fuel : Nat) :
    ∀ (engine : GameEngine.EngineSt) (order : List Nat) (cpi na : Nat)
      (agg : Option String) (script : List Events.Action) (trace : List String)
      (e2 : GameEngine.EngineSt) (tr : List String),
      cpi = 0 ∨ cpi < order.length →
      (agg = none → eligibleBetsMatched engine.gs order) →
      GameEngine.runBettingLoop engine order cpi na agg script trace fuel =
        some (e2, true, tr) →
      eligibleBetsMatched e2.gs order := by
  induction fuel with
  | zero =>
    intro engine order cpi na agg script trace e2 tr hcpi hINV hrun
    exact absurd hrun (by simp [GameEngine.runBettingLoop])
  | succ n ih =>
    intro engine order cpi na agg script trace e2 tr hcpi hINV hrun
    simp only [GameEngine.runBettingLoop] at hrun
    split at hrun
    · simp at hrun
    split at hrun
    · -- cpi ≥ order.length: only possible for an empty order
      rename_i hone hcpi2
      have horder : order = [] := by
        rcases hcpi with h0 | hlt
        · cases order with
          | nil => rfl
          | cons a t => rw [h0] at hcpi2; simp at hcpi2
        · omega
      subst horder
      exact matched_of_breakResult engine trace e2 _ tr [] hrun (by intro j hj; simp at hj)
    split at hrun
    · -- skip branch: the seat is folded or all-in
      split at hrun
      · -- a full pass has just completed
        split at hrun
        · -- break site: no active bettor is below the bet to match
          rename_i hA
          refine matched_of_breakResult engine trace e2 _ tr order hrun ?_
          intro j hj hf ha
          rw [Bool.and_eq_true] at hA
          have hA1 := hA.1
          rw [List.isEmpty_iff] at hA1
          have hnj := List.filter_eq_nil_iff.mp hA1 j hj
          by_contra hle
          have hlt2 : (engine.gs.players.getD j defaultPlayer).current_bet <
              engine.gs.current_bet_to_match := by omega
          exact hnj (by rw [hf, ha]; simpa using hlt2)
        · split at hrun
          · -- break site: everyone acted and all eligible bets equal the bet to match
            rename_i hB
            refine matched_of_breakResult engine trace e2 _ tr order hrun ?_
            intro j hj hf ha
            rw [Bool.and_eq_true, Bool.and_eq_true] at hB
            obtain ⟨⟨-, hBe⟩, hB2⟩ := hB
            have hjf : j ∈ order.filter (fun k =>
                !(engine.gs.players.getD k defaultPlayer).is_folded &&
                !(engine.gs.players.getD k defaultPlayer).is_all_in) :=
              List.mem_filter.mpr ⟨hj, by rw [hf, ha]; rfl⟩
            have hmem : (engine.gs.players.getD j defaultPlayer).current_bet ∈
                (order.filter (fun k =>
                  !(engine.gs.players.getD k defaultPlayer).is_folded &&
                  !(engine.gs.players.getD k defaultPlayer).is_all_in)).map
                    (fun k => (engine.gs.players.getD k defaultPlayer).current_bet) :=
              List.mem_map_of_mem _ hjf
            rcases heb : (order.filter (fun k =>
                !(engine.gs.players.getD k defaultPlayer).is_folded &&
                !(engine.gs.players.getD k defaultPlayer).is_all_in)).map
                  (fun k => (engine.gs.players.getD k defaultPlayer).current_bet)
              with _ | ⟨b, rest⟩
            · rw [heb] at hmem; simp at hmem
            · rw [heb] at hmem hBe hB2
              simp only [List.headD_cons, beq_iff_eq] at hB2
              rcases List.mem_cons.mp hmem with hc | hc
              · omega
              · have := List.all_eq_true.mp hBe _ hc
                simp only [beq_iff_eq] at this
                omega
          · split at hrun
            · -- break site: no aggressor and everyone has acted
              rename_i hC
              rw [Bool.and_eq_true] at hC
              obtain ⟨hC1, -⟩ := hC
              exact matched_of_breakResult engine trace e2 _ tr order hrun
                (hINV (Option.isNone_iff_eq_none.mp hC1))
            · split at hrun
              · -- break site: aggressor set and all eligible bets matched
                rename_i hD
                refine matched_of_breakResult engine trace e2 _ tr order hrun ?_
                intro j hj hf ha
                rw [Bool.and_eq_true] at hD
                have hDj := List.all_eq_true.mp hD.2 j hj
                rw [hf, ha] at hDj
                simpa using hDj
              · -- wrap around and continue
                exact ih engine order 0 na agg script trace e2 tr (Or.inl rfl)
                  hINV hrun
      · -- pass not finished: continue with the next seat
        rename_i hidx
        exact ih engine order (cpi + 1) na agg script trace e2 tr
          (Or.inr (by omega)) hINV hrun
    · -- acting branch
      split at hrun
      · -- no scripted action available
        simp at hrun
      · -- a scripted (or automatic check) action was taken
        rename_i action script2 heq
        by_cases hv : (GameEngine.processPlayerAction engine (order.getD cpi 0) action
            (TexasHoldemRules.get_allowed_actions
              (engine.gs.players.getD (order.getD cpi 0) defaultPlayer)
              engine.gs)).2.1 = true
        · rw [if_pos hv] at hrun
          repeat' split at hrun
          all_goals first
          | exact absurd ‹false = true› (by decide)
          | exact matched_of_breakResult _ _ e2 _ tr order hrun
              (matched_of_all _ order (by assumption))
          | exact ih _ order 0 _ _ _ _ _ _ (Or.inl rfl)
              (fun h2 => matched_of_all _ order (by assumption)) hrun
          | exact ih _ order (cpi + 1) _ _ _ _ _ _ (Or.inr (by omega))
              (fun h2 => matched_of_all _ order (by assumption)) hrun
          | exact ih _ order 0 _ _ _ _ _ _ (Or.inl rfl)
              (fun h2 => absurd h2 (by simp)) hrun
          | exact ih _ order (cpi + 1) _ _ _ _ _ _ (Or.inr (by omega))
              (fun h2 => absurd h2 (by simp)) hrun
          | exact ih _ order 0 _ _ _ _ _ _ (Or.inl rfl)
              (fun h2 => processPlayerAction_preserves_matched2 engine (order.getD cpi 0)
                action (TexasHoldemRules.get_allowed_actions
                  (engine.gs.players.getD (order.getD cpi 0) defaultPlayer) engine.gs)
                order (by assumption) (hINV h2)) hrun
          | exact ih _ order (cpi + 1) _ _ _ _ _ _ (Or.inr (by omega))
              (fun h2 => processPlayerAction_preserves_matched2 engine (order.getD cpi 0)
                action (TexasHoldemRules.get_allowed_actions
                  (engine.gs.players.getD (order.getD cpi 0) defaultPlayer) engine.gs)
                order (by assumption) (hINV h2)) hrun
        · rw [if_neg hv] at hrun
          replace hv : (GameEngine.processPlayerAction engine (order.getD cpi 0) action
              (TexasHoldemRules.get_allowed_actions
                (engine.gs.players.getD (order.getD cpi 0) defaultPlayer)
                engine.gs)).2.1 = false := by
            simpa using hv
          rw [processPlayerAction_of_invalid engine (order.getD cpi 0) action
            (TexasHoldemRules.get_allowed_actions
              (engine.gs.players.getD (order.getD cpi 0) defaultPlayer) engine.gs) hv]
            at hrun
          repeat' split at hrun
          all_goals first
          | exact absurd ‹false = true› (by decide)
          | exact matched_of_breakResult _ _ e2 _ tr order hrun
              (matched_of_all _ order (by assumption))
          | exact ih _ order 0 _ _ _ _ _ _ (Or.inl rfl)
              (fun h2 => matched_of_all _ order (by assumption)) hrun
          | exact ih _ order (cpi + 1) _ _ _ _ _ _ (Or.inr (by omega))
              (fun h2 => matched_of_all _ order (by assumption)) hrun
          | exact ih _ order 0 _ _ _ _ _ _ (Or.inl rfl)
              (fun h2 => absurd h2 (by simp)) hrun
          | exact ih _ order (cpi + 1) _ _ _ _ _ _ (Or.inr (by omega))
              (fun h2 => absurd h2 (by simp)) hrun
          | exact ih _ order 0 _ _ _ _ _ _ (Or.inl rfl)
              (fun h2 => processPlayerAction_preserves_matched2 engine (order.getD cpi 0)
                ⟨"fold", 0, (engine.gs.players.getD (order.getD cpi 0)
                  defaultPlayer).player_id⟩
                ⟨true, false, none, none, none⟩
                order (by assumption) (hINV h2)) hrun
          | exact ih _ order (cpi + 1) _ _ _ _ _ _ (Or.inr (by omega))
              (fun h2 => processPlayerAction_preserves_matched2 engine (order.getD cpi 0)
                ⟨"fold", 0, (engine.gs.players.getD (order.getD cpi 0)
                  defaultPlayer).player_id⟩
                ⟨true, false, none, none, none⟩
                order (by assumption) (hINV h2)) hrun

/-- C5: a bet or raise reopens the action.  Concretely, in the 3-handed
street where the callers act first and the big blind then puts in an
aggressive action, both earlier callers are asked to act again (the seat
trace is P0 P1 P2 P0 P1 P2) before the street closes normally; and in
general the betting loop never closes a street (with players still
contesting it) while some eligible (non-folded, non-all-in) seat of the
acting order has a street bet below `current_bet_to_match`. -/
theorem c5_raise_reopens_action :
    ((GameEngine.run_betting_round c5ThreeHanded c5Script 20).map
        (fun r => (r.2.1, r.2.2)) =
      some (true, ["P0", "P1", "P2", "P0", "P1", "P2"])) ∧
    (∀ (fuel : Nat) (engine : GameEngine.EngineSt) (order : List Nat)
      (cpi na : Nat) (agg : Option String) (script : List Events.Action)
      (trace : List String) (e2 : GameEngine.EngineSt) (tr : List String),
      cpi = 0 ∨ cpi < order.length →
      (agg = none → eligibleBetsMatched engine.gs order) →
      GameEngine.runBettingLoop engine order cpi na agg script trace fuel =
        some (e2, true, tr) →
      eligibleBetsMatched e2.gs order) :=
  ⟨by decide, fun fuel => runBettingLoop_closed_matched fuel⟩

/-- Witness for C5's general conjunct at the concrete 3-handed street:
after the reopened action completes, every seat has 40 in and the
invariant theorem certifies all eligible bets meet the bet to match. -/
theorem c5_raise_reopens_action_witness :
    ((0 : Nat) = 0 ∨ (0 : Nat) < ([0, 1, 2] : List Nat).length) ∧
    eligibleBetsMatched
      (⟨⟨[⟨"P0", 960, [], 40, false, false⟩, ⟨"P1", 960, [], 40, false, false⟩,
          ⟨"P2", 960, [], 40, false, false⟩],
         0, 0, [], 120, 0, 40, some "P2", 20, "pre-flop", 10, 20, 20, 1, false,
         some "P1", some "P2"⟩, [0, 1, 2]⟩ : GameEngine.EngineSt).gs [0, 1, 2] := by
  refine ⟨Or.inl rfl, ?_⟩
  exact c5_raise_reopens_action.2 20 c5ThreeHanded [0, 1, 2] 0 0 (some "P2") c5Script
    [] _ ["P0", "P1", "P2", "P0", "P1", "P2"] (Or.inl rfl)
    (fun h => absurd h (by decide)) (by decide)

theorem wheel_decode (a b c d e : Int) (hba : b ≤ a) (hcb : c ≤ b) (hdc : d ≤ c)
    (hed : e ≤ d)
    (hw : sameSet [a, b, c, d, e] [14, 5, 4, 3, 2] = true) :
    a = 14 ∧ b = 5 ∧ c = 4 ∧ d = 3 ∧ e = 2 := by
  simp only [sameSet, Bool.and_eq_true, List.all_eq_true, List.contains,
    List.elem_iff, List.mem_cons, List.not_mem_nil, or_false] at hw
  obtain ⟨hfwd, hbwd⟩ := hw
  have hma := hfwd a (by simp)
  have hme := hfwd e (by simp)
  have h14 := hbwd 14 (by simp)
  have h5 := hbwd 5 (by simp)
  have h4 := hbwd 4 (by simp)
  have h3 := hbwd 3 (by simp)
  have h2 := hbwd 2 (by simp)
  have ha : a = 14 := by
    rcases h14 with h | h | h | h | h <;> rcases hma with g | g | g | g | g <;> omega
  have he : e = 2 := by
    rcases h2 with h | h | h | h | h <;> rcases hme with g | g | g | g | g <;> omega
  subst ha he
  rcases h5 with h | h | h | h | h <;> rcases h4 with g | g | g | g | g <;>
    rcases h3 with k | k | k | k | k <;>
    exact ⟨rfl, by omega, by omega, by omega, rfl⟩
set_option maxHeartbeats 1600000 in
theorem calcCore_eq_spec (a b c d e : Int) (f : Bool)
    (hba : b ≤ a) (hcb : c ≤ b) (hdc : d ≤ c) (hed : e ≤ d) (hae : a ≠ e)
    (hflush : f = true → a ≠ b ∧ b ≠ c ∧ c ≠ d ∧ d ≠ e) :
    HandEvaluator.calcCore [a, b, c, d, e] f = specEvalCore [a, b, c, d, e] f := by
  by_cases hab : a = b <;> by_cases hbc : b = c <;> by_cases hcd : c = d <;>
    by_cases hde : d = e
  · -- all five ranks equal: impossible (at most four suits)
    exact absurd (by omega : a = e) hae
  · -- pattern TTTF: ranks [d, d, d, d, e]
    have hf : f = false := by
      cases f
      · rfl
      · exact absurd hab (hflush rfl).1
    subst hf
    have hw : sameSet [d, d, d, d, e] [14, 5, 4, 3, 2] = false := by
      cases hww : sameSet [d, d, d, d, e] [14, 5, 4, 3, 2]
      · rfl
      · obtain ⟨x1, x2, x3, x4, x5⟩ := wheel_decode d d d d e
          (by omega) (by omega) (by omega) (by omega) hww
        omega
    have hcons : ¬ (d = d - 1) := by omega
    simp [HandEvaluator.calcCore, specEvalCore, specConsecutive,
      HandEvaluator.sortedRankCounts, HandEvaluator.counterItems,
      HandEvaluator.straightInfo, HandEvaluator.straightScan,
      HandEvaluator.HAND_RANKINGS,
      pyUnique, pyUniqueGo, pySort, pyInsert,
      List.count_cons, List.count_nil, hw, hcons, hab, hbc, hcd,
      show ¬ d = e by omega,
      show ¬ e = d by omega,
      show e < d by omega,
      show e ≤ d by omega,
      show ¬ d < e by omega,
      show ¬ d ≤ e by omega]
  · -- pattern TTFT: ranks [c, c, c, e, e]
    have hf : f = false := by
      cases f
      · rfl
      · exact absurd hab (hflush rfl).1
    subst hf
    have hw : sameSet [c, c, c, e, e] [14, 5, 4, 3, 2] = false := by
      cases hww : sameSet [c, c, c, e, e] [14, 5, 4, 3, 2]
      · rfl
      · obtain ⟨x1, x2, x3, x4, x5⟩ := wheel_decode c c c e e
          (by omega) (by omega) (by omega) (by omega) hww
        omega
    have hcons : ¬ (c = c - 1) := by omega
    simp [HandEvaluator.calcCore, specEvalCore, specConsecutive,
      HandEvaluator.sortedRankCounts, HandEvaluator.counterItems,
      HandEvaluator.straightInfo, HandEvaluator.straightScan,
      HandEvaluator.HAND_RANKINGS,
      pyUnique, pyUniqueGo, pySort, pyInsert,
      List.count_cons, List.count_nil, hw, hcons, hab, hbc, hde,
      show ¬ c = e by omega,
      show ¬ e = c by omega,
      show e < c by omega,
      show e ≤ c by omega,
      show ¬ c < e by omega,
      show ¬ c ≤ e by omega]
  · -- pattern TTFF: ranks [c, c, c, d, e]
    have hf : f = false := by
      cases f
      · rfl
      · exact absurd hab (hflush rfl).1
    subst hf
    have hw : sameSet [c, c, c, d, e] [14, 5, 4, 3, 2] = false := by
      cases hww : sameSet [c, c, c, d, e] [14, 5, 4, 3, 2]
      · rfl
      · obtain ⟨x1, x2, x3, x4, x5⟩ := wheel_decode c c c d e
          (by omega) (by omega) (by omega) (by omega) hww
        omega
    have hcons : ¬ (c = c - 1) := by omega
    simp [HandEvaluator.calcCore, specEvalCore, specConsecutive,
      HandEvaluator.sortedRankCounts, HandEvaluator.counterItems,
      HandEvaluator.straightInfo, HandEvaluator.straightScan,
      HandEvaluator.HAND_RANKINGS,
      pyUnique, pyUniqueGo, pySort, pyInsert,
      List.count_cons, List.count_nil, hw, hcons, hab, hbc,
      show ¬ c = d by omega,
      show ¬ d = c by omega,
      show d < c by omega,
      show d ≤ c by omega,
      show ¬ c < d by omega,
      show ¬ c ≤ d by omega,
      show ¬ c = e by omega,
      show ¬ e = c by omega,
      show e < c by omega,
      show e ≤ c by omega,
      show ¬ c < e by omega,
      show ¬ c ≤ e by omega,
      show ¬ d = e by omega,
      show ¬ e = d by omega,
      show e < d by omega,
      show e ≤ d by omega,
      show ¬ d < e by omega,
      show ¬ d ≤ e by omega]
  · -- pattern TFTT: ranks [b, b, e, e, e]
    have hf : f = false := by
      cases f
      · rfl
      · exact absurd hab (hflush rfl).1
    subst hf
    have hw : sameSet [b, b, e, e, e] [14, 5, 4, 3, 2] = false := by
      cases hww : sameSet [b, b, e, e, e] [14, 5, 4, 3, 2]
      · rfl
      · obtain ⟨x1, x2, x3, x4, x5⟩ := wheel_decode b b e e e
          (by omega) (by omega) (by omega) (by omega) hww
        omega
    have hcons : ¬ (b = b - 1) := by omega
    simp [HandEvaluator.calcCore, specEvalCore, specConsecutive,
      HandEvaluator.sortedRankCounts, HandEvaluator.counterItems,
      HandEvaluator.straightInfo, HandEvaluator.straightScan,
      HandEvaluator.HAND_RANKINGS,
      pyUnique, pyUniqueGo, pySort, pyInsert,
      List.count_cons, List.count_nil, hw, hcons, hab, hcd, hde,
      show ¬ b = e by omega,
      show ¬ e = b by omega,
      show e < b by omega,
      show e ≤ b by omega,
      show ¬ b < e by omega,
      show ¬ b ≤ e by omega]
  · -- pattern TFTF: ranks [b, b, d, d, e]
    have hf : f = false := by
      cases f
      · rfl
      · exact absurd hab (hflush rfl).1
    subst hf
    have hw : sameSet [b, b, d, d, e] [14, 5, 4, 3, 2] = false := by
      cases hww : sameSet [b, b, d, d, e] [14, 5, 4, 3, 2]
      · rfl
      · obtain ⟨x1, x2, x3, x4, x5⟩ := wheel_decode b b d d e
          (by omega) (by omega) (by omega) (by omega) hww
        omega
    have hcons : ¬ (b = b - 1) := by omega
    simp [HandEvaluator.calcCore, specEvalCore, specConsecutive,
      HandEvaluator.sortedRankCounts, HandEvaluator.counterItems,
      HandEvaluator.straightInfo, HandEvaluator.straightScan,
      HandEvaluator.HAND_RANKINGS,
      pyUnique, pyUniqueGo, pySort, pyInsert,
      List.count_cons, List.count_nil, hw, hcons, hab, hcd,
      show ¬ b = d by omega,
      show ¬ d = b by omega,
      show d < b by omega,
      show d ≤ b by omega,
      show ¬ b < d by omega,
      show ¬ b ≤ d by omega,
      show ¬ b = e by omega,
      show ¬ e = b by omega,
      show e < b by omega,
      show e ≤ b by omega,
      show ¬ b < e by omega,
      show ¬ b ≤ e by omega,
      show ¬ d = e by omega,
      show ¬ e = d by omega,
      show e < d by omega,
      show e ≤ d by omega,
      show ¬ d < e by omega,
      show ¬ d ≤ e by omega]
  · -- pattern TFFT: ranks [b, b, c, e, e]
    have hf : f = false := by
      cases f
      · rfl
      · exact absurd hab (hflush rfl).1
    subst hf
    have hw : sameSet [b, b, c, e, e] [14, 5, 4, 3, 2] = false := by
      cases hww : sameSet [b, b, c, e, e] [14, 5, 4, 3, 2]
      · rfl
      · obtain ⟨x1, x2, x3, x4, x5⟩ := wheel_decode b b c e e
          (by omega) (by omega) (by omega) (by omega) hww
        omega
    have hcons : ¬ (b = b - 1) := by omega
    simp [HandEvaluator.calcCore, specEvalCore, specConsecutive,
      HandEvaluator.sortedRankCounts, HandEvaluator.counterItems,
      HandEvaluator.straightInfo, HandEvaluator.straightScan,
      HandEvaluator.HAND_RANKINGS,
      pyUnique, pyUniqueGo, pySort, pyInsert,
      List.count_cons, List.count_nil, hw, hcons, hab, hde,
      show ¬ b = c by omega,
      show ¬ c = b by omega,
      show c < b by omega,
      show c ≤ b by omega,
      show ¬ b < c by omega,
      show ¬ b ≤ c by omega,
      show ¬ b = e by omega,
      show ¬ e = b by omega,
      show e < b by omega,
      show e ≤ b by omega,
      show ¬ b < e by omega,
      show ¬ b ≤ e by omega,
      show ¬ c = e by omega,
      show ¬ e = c by omega,
      show e < c by omega,
      show e ≤ c by omega,
      show ¬ c < e by omega,
      show ¬ c ≤ e by omega]
  · -- pattern TFFF: ranks [b, b, c, d, e]
    have hf : f = false := by
      cases f
      · rfl
      · exact absurd hab (hflush rfl).1
    subst hf
    have hw : sameSet [b, b, c, d, e] [14, 5, 4, 3, 2] = false := by
      cases hww : sameSet [b, b, c, d, e] [14, 5, 4, 3, 2]
      · rfl
      · obtain ⟨x1, x2, x3, x4, x5⟩ := wheel_decode b b c d e
          (by omega) (by omega) (by omega) (by omega) hww
        omega
    have hcons : ¬ (b = b - 1) := by omega
    simp [HandEvaluator.calcCore, specEvalCore, specConsecutive,
      HandEvaluator.sortedRankCounts, HandEvaluator.counterItems,
      HandEvaluator.straightInfo, HandEvaluator.straightScan,
      HandEvaluator.HAND_RANKINGS,
      pyUnique, pyUniqueGo, pySort, pyInsert,
      List.count_cons, List.count_nil, hw, hcons, hab,
      show ¬ b = c by omega,
      show ¬ c = b by omega,
      show c < b by omega,
      show c ≤ b by omega,
      show ¬ b < c by omega,
      show ¬ b ≤ c by omega,
      show ¬ b = d by omega,
      show ¬ d = b by omega,
      show d < b by omega,
      show d ≤ b by omega,
      show ¬ b < d by omega,
      show ¬ b ≤ d by omega,
      show ¬ b = e by omega,
      show ¬ e = b by omega,
      show e < b by omega,
      show e ≤ b by omega,
      show ¬ b < e by omega,
      show ¬ b ≤ e by omega,
      show ¬ c = d by omega,
      show ¬ d = c by omega,
      show d < c by omega,
      show d ≤ c by omega,
      show ¬ c < d by omega,
      show ¬ c ≤ d by omega,
      show ¬ c = e by omega,
      show ¬ e = c by omega,
      show e < c by omega,
      show e ≤ c by omega,
      show ¬ c < e by omega,
      show ¬ c ≤ e by omega,
      show ¬ d = e by omega,
      show ¬ e = d by omega,
      show e < d by omega,
      show e ≤ d by omega,
      show ¬ d < e by omega,
      show ¬ d ≤ e by omega]
  · -- pattern FTTT: ranks [a, e, e, e, e]
    have hf : f = false := by
      cases f
      · rfl
      · exact absurd hbc (hflush rfl).2.1
    subst hf
    have hw : sameSet [a, e, e, e, e] [14, 5, 4, 3, 2] = false := by
      cases hww : sameSet [a, e, e, e, e] [14, 5, 4, 3, 2]
      · rfl
      · obtain ⟨x1, x2, x3, x4, x5⟩ := wheel_decode a e e e e
          (by omega) (by omega) (by omega) (by omega) hww
        omega
    have hcons : ¬ (e = e - 1) := by omega
    simp [HandEvaluator.calcCore, specEvalCore, specConsecutive,
      HandEvaluator.sortedRankCounts, HandEvaluator.counterItems,
      HandEvaluator.straightInfo, HandEvaluator.straightScan,
      HandEvaluator.HAND_RANKINGS,
      pyUnique, pyUniqueGo, pySort, pyInsert,
      List.count_cons, List.count_nil, hw, hcons, hbc, hcd, hde,
      show ¬ a = e by omega,
      show ¬ e = a by omega,
      show e < a by omega,
      show e ≤ a by omega,
      show ¬ a < e by omega,
      show ¬ a ≤ e by omega]
  · -- pattern FTTF: ranks [a, d, d, d, e]
    have hf : f = false := by
      cases f
      · rfl
      · exact absurd hbc (hflush rfl).2.1
    subst hf
    have hw : sameSet [a, d, d, d, e] [14, 5, 4, 3, 2] = false := by
      cases hww : sameSet [a, d, d, d, e] [14, 5, 4, 3, 2]
      · rfl
      · obtain ⟨x1, x2, x3, x4, x5⟩ := wheel_decode a d d d e
          (by omega) (by omega) (by omega) (by omega) hww
        omega
    have hcons : ¬ (d = d - 1) := by omega
    simp [HandEvaluator.calcCore, specEvalCore, specConsecutive,
      HandEvaluator.sortedRankCounts, HandEvaluator.counterItems,
      HandEvaluator.straightInfo, HandEvaluator.straightScan,
      HandEvaluator.HAND_RANKINGS,
      pyUnique, pyUniqueGo, pySort, pyInsert,
      List.count_cons, List.count_nil, hw, hcons, hbc, hcd,
      show ¬ a = d by omega,
      show ¬ d = a by omega,
      show d < a by omega,
      show d ≤ a by omega,
      show ¬ a < d by omega,
      show ¬ a ≤ d by omega,
      show ¬ a = e by omega,
      show ¬ e = a by omega,
      show e < a by omega,
      show e ≤ a by omega,
      show ¬ a < e by omega,
      show ¬ a ≤ e by omega,
      show ¬ d = e by omega,
      show ¬ e = d by omega,
      show e < d by omega,
      show e ≤ d by omega,
      show ¬ d < e by omega,
      show ¬ d ≤ e by omega]
  · -- pattern FTFT: ranks [a, c, c, e, e]
    have hf : f = false := by
      cases f
      · rfl
      · exact absurd hbc (hflush rfl).2.1
    subst hf
    have hw : sameSet [a, c, c, e, e] [14, 5, 4, 3, 2] = false := by
      cases hww : sameSet [a, c, c, e, e] [14, 5, 4, 3, 2]
      · rfl
      · obtain ⟨x1, x2, x3, x4, x5⟩ := wheel_decode a c c e e
          (by omega) (by omega) (by omega) (by omega) hww
        omega
    have hcons : ¬ (c = c - 1) := by omega
    simp [HandEvaluator.calcCore, specEvalCore, specConsecutive,
      HandEvaluator.sortedRankCounts, HandEvaluator.counterItems,
      HandEvaluator.straightInfo, HandEvaluator.straightScan,
      HandEvaluator.HAND_RANKINGS,
      pyUnique, pyUniqueGo, pySort, pyInsert,
      List.count_cons, List.count_nil, hw, hcons, hbc, hde,
      show ¬ a = c by omega,
      show ¬ c = a by omega,
      show c < a by omega,
      show c ≤ a by omega,
      show ¬ a < c by omega,
      show ¬ a ≤ c by omega,
      show ¬ a = e by omega,
      show ¬ e = a by omega,
      show e < a by omega,
      show e ≤ a by omega,
      show ¬ a < e by omega,
      show ¬ a ≤ e by omega,
      show ¬ c = e by omega,
      show ¬ e = c by omega,
      show e < c by omega,
      show e ≤ c by omega,
      show ¬ c < e by omega,
      show ¬ c ≤ e by omega]
  · -- pattern FTFF: ranks [a, c, c, d, e]
    have hf : f = false := by
      cases f
      · rfl
      · exact absurd hbc (hflush rfl).2.1
    subst hf
    have hw : sameSet [a, c, c, d, e] [14, 5, 4, 3, 2] = false := by
      cases hww : sameSet [a, c, c, d, e] [14, 5, 4, 3, 2]
      · rfl
      · obtain ⟨x1, x2, x3, x4, x5⟩ := wheel_decode a c c d e
          (by omega) (by omega) (by omega) (by omega) hww
        omega
    have hcons : ¬ (c = c - 1) := by omega
    simp [HandEvaluator.calcCore, specEvalCore, specConsecutive,
      HandEvaluator.sortedRankCounts, HandEvaluator.counterItems,
      HandEvaluator.straightInfo, HandEvaluator.straightScan,
      HandEvaluator.HAND_RANKINGS,
      pyUnique, pyUniqueGo, pySort, pyInsert,
      List.count_cons, List.count_nil, hw, hcons, hbc,
      show ¬ a = c by omega,
      show ¬ c = a by omega,
      show c < a by omega,
      show c ≤ a by omega,
      show ¬ a < c by omega,
      show ¬ a ≤ c by omega,
      show ¬ a = d by omega,
      show ¬ d = a by omega,
      show d < a by omega,
      show d ≤ a by omega,
      show ¬ a < d by omega,
      show ¬ a ≤ d by omega,
      show ¬ a = e by omega,
      show ¬ e = a by omega,
      show e < a by omega,
      show e ≤ a by omega,
      show ¬ a < e by omega,
      show ¬ a ≤ e by omega,
      show ¬ c = d by omega,
      show ¬ d = c by omega,
      show d < c by omega,
      show d ≤ c by omega,
      show ¬ c < d by omega,
      show ¬ c ≤ d by omega,
      show ¬ c = e by omega,
      show ¬ e = c by omega,
      show e < c by omega,
      show e ≤ c by omega,
      show ¬ c < e by omega,
      show ¬ c ≤ e by omega,
      show ¬ d = e by omega,
      show ¬ e = d by omega,
      show e < d by omega,
      show e ≤ d by omega,
      show ¬ d < e by omega,
      show ¬ d ≤ e by omega]
  · -- pattern FFTT: ranks [a, b, e, e, e]
    have hf : f = false := by
      cases f
      · rfl
      · exact absurd hcd (hflush rfl).2.2.1
    subst hf
    have hw : sameSet [a, b, e, e, e] [14, 5, 4, 3, 2] = false := by
      cases hww : sameSet [a, b, e, e, e] [14, 5, 4, 3, 2]
      · rfl
      · obtain ⟨x1, x2, x3, x4, x5⟩ := wheel_decode a b e e e
          (by omega) (by omega) (by omega) (by omega) hww
        omega
    have hcons : ¬ (e = e - 1) := by omega
    simp [HandEvaluator.calcCore, specEvalCore, specConsecutive,
      HandEvaluator.sortedRankCounts, HandEvaluator.counterItems,
      HandEvaluator.straightInfo, HandEvaluator.straightScan,
      HandEvaluator.HAND_RANKINGS,
      pyUnique, pyUniqueGo, pySort, pyInsert,
      List.count_cons, List.count_nil, hw, hcons, hcd, hde,
      show ¬ a = b by omega,
      show ¬ b = a by omega,
      show b < a by omega,
      show b ≤ a by omega,
      show ¬ a < b by omega,
      show ¬ a ≤ b by omega,
      show ¬ a = e by omega,
      show ¬ e = a by omega,
      show e < a by omega,
      show e ≤ a by omega,
      show ¬ a < e by omega,
      show ¬ a ≤ e by omega,
      show ¬ b = e by omega,
      show ¬ e = b by omega,
      show e < b by omega,
      show e ≤ b by omega,
      show ¬ b < e by omega,
      show ¬ b ≤ e by omega]
  · -- pattern FFTF: ranks [a, b, d, d, e]
    have hf : f = false := by
      cases f
      · rfl
      · exact absurd hcd (hflush rfl).2.2.1
    subst hf
    have hw : sameSet [a, b, d, d, e] [14, 5, 4, 3, 2] = false := by
      cases hww : sameSet [a, b, d, d, e] [14, 5, 4, 3, 2]
      · rfl
      · obtain ⟨x1, x2, x3, x4, x5⟩ := wheel_decode a b d d e
          (by omega) (by omega) (by omega) (by omega) hww
        omega
    have hcons : ¬ (d = d - 1) := by omega
    simp [HandEvaluator.calcCore, specEvalCore, specConsecutive,
      HandEvaluator.sortedRankCounts, HandEvaluator.counterItems,
      HandEvaluator.straightInfo, HandEvaluator.straightScan,
      HandEvaluator.HAND_RANKINGS,
      pyUnique, pyUniqueGo, pySort, pyInsert,
      List.count_cons, List.count_nil, hw, hcons, hcd,
      show ¬ a = b by omega,
      show ¬ b = a by omega,
      show b < a by omega,
      show b ≤ a by omega,
      show ¬ a < b by omega,
      show ¬ a ≤ b by omega,
      show ¬ a = d by omega,
      show ¬ d = a by omega,
      show d < a by omega,
      show d ≤ a by omega,
      show ¬ a < d by omega,
      show ¬ a ≤ d by omega,
      show ¬ a = e by omega,
      show ¬ e = a by omega,
      show e < a by omega,
      show e ≤ a by omega,
      show ¬ a < e by omega,
      show ¬ a ≤ e by omega,
      show ¬ b = d by omega,
      show ¬ d = b by omega,
      show d < b by omega,
      show d ≤ b by omega,
      show ¬ b < d by omega,
      show ¬ b ≤ d by omega,
      show ¬ b = e by omega,
      show ¬ e = b by omega,
      show e < b by omega,
      show e ≤ b by omega,
      show ¬ b < e by omega,
      show ¬ b ≤ e by omega,
      show ¬ d = e by omega,
      show ¬ e = d by omega,
      show e < d by omega,
      show e ≤ d by omega,
      show ¬ d < e by omega,
      show ¬ d ≤ e by omega]
  · -- pattern FFFT: ranks [a, b, c, e, e]
    have hf : f = false := by
      cases f
      · rfl
      · exact absurd hde (hflush rfl).2.2.2
    subst hf
    have hw : sameSet [a, b, c, e, e] [14, 5, 4, 3, 2] = false := by
      cases hww : sameSet [a, b, c, e, e] [14, 5, 4, 3, 2]
      · rfl
      · obtain ⟨x1, x2, x3, x4, x5⟩ := wheel_decode a b c e e
          (by omega) (by omega) (by omega) (by omega) hww
        omega
    have hcons : ¬ (e = e - 1) := by omega
    simp [HandEvaluator.calcCore, specEvalCore, specConsecutive,
      HandEvaluator.sortedRankCounts, HandEvaluator.counterItems,
      HandEvaluator.straightInfo, HandEvaluator.straightScan,
      HandEvaluator.HAND_RANKINGS,
      pyUnique, pyUniqueGo, pySort, pyInsert,
      List.count_cons, List.count_nil, hw, hcons, hde,
      show ¬ a = b by omega,
      show ¬ b = a by omega,
      show b < a by omega,
      show b ≤ a by omega,
      show ¬ a < b by omega,
      show ¬ a ≤ b by omega,
      show ¬ a = c by omega,
      show ¬ c = a by omega,
      show c < a by omega,
      show c ≤ a by omega,
      show ¬ a < c by omega,
      show ¬ a ≤ c by omega,
      show ¬ a = e by omega,
      show ¬ e = a by omega,
      show e < a by omega,
      show e ≤ a by omega,
      show ¬ a < e by omega,
      show ¬ a ≤ e by omega,
      show ¬ b = c by omega,
      show ¬ c = b by omega,
      show c < b by omega,
      show c ≤ b by omega,
      show ¬ b < c by omega,
      show ¬ b ≤ c by omega,
      show ¬ b = e by omega,
      show ¬ e = b by omega,
      show e < b by omega,
      show e ≤ b by omega,
      show ¬ b < e by omega,
      show ¬ b ≤ e by omega,
      show ¬ c = e by omega,
      show ¬ e = c by omega,
      show e < c by omega,
      show e ≤ c by omega,
      show ¬ c < e by omega,
      show ¬ c ≤ e by omega]
  · -- all ranks distinct: flush / straight / high-card analysis
    clear hflush
    by_cases hw : sameSet [a, b, c, d, e] [14, 5, 4, 3, 2] = true
    · obtain ⟨h1, h2, h3, h4, h5⟩ := wheel_decode a b c d e hba hcb hdc hed hw
      subst h1 h2 h3 h4 h5
      cases f <;> decide
    · replace hw : sameSet [a, b, c, d, e] [14, 5, 4, 3, 2] = false := by
        cases hww : sameSet [a, b, c, d, e] [14, 5, 4, 3, 2]
        · rfl
        · exact absurd hww hw
      by_cases hst : a - e = 4
      · have hb2 : b = a - 1 := by omega
        have hc2 : c = a - 2 := by omega
        have hd2 : d = a - 3 := by omega
        have he2 : e = a - 4 := by omega
        subst hb2 hc2 hd2 he2
        by_cases ha14 : a = 14
        · subst ha14
          cases f <;> decide
        · cases f <;>
            simp [HandEvaluator.calcCore, specEvalCore, specConsecutive,
      HandEvaluator.sortedRankCounts, HandEvaluator.counterItems,
      HandEvaluator.straightInfo, HandEvaluator.straightScan,
      HandEvaluator.HAND_RANKINGS,
      pyUnique, pyUniqueGo, pySort, pyInsert,
      List.count_cons, List.count_nil, hw, ha14,
              show a - 1 - 1 = a - 2 by omega, show a - 2 - 1 = a - 3 by omega,
              show a - 3 - 1 = a - 4 by omega, show a - (a - 4) = 4 by omega,
              show a - 1 ≤ a by omega, show a - 2 ≤ a - 1 by omega,
              show a - 3 ≤ a - 2 by omega, show a - 4 ≤ a - 3 by omega,
              show ¬ a = a - 1 by omega, show ¬ a = a - 2 by omega,
              show ¬ a = a - 3 by omega, show ¬ a = a - 4 by omega,
              show ¬ a - 1 = a by omega, show ¬ a - 1 = a - 2 by omega,
              show ¬ a - 1 = a - 3 by omega, show ¬ a - 1 = a - 4 by omega,
              show ¬ a - 2 = a by omega, show ¬ a - 2 = a - 1 by omega,
              show ¬ a - 2 = a - 3 by omega, show ¬ a - 2 = a - 4 by omega,
              show ¬ a - 3 = a by omega, show ¬ a - 3 = a - 1 by omega,
              show ¬ a - 3 = a - 2 by omega, show ¬ a - 3 = a - 4 by omega,
              show ¬ a - 4 = a by omega, show ¬ a - 4 = a - 1 by omega,
              show ¬ a - 4 = a - 2 by omega, show ¬ a - 4 = a - 3 by omega]
      · have hcons : specConsecutive [a, b, c, d, e] = false := by
          cases hcc : specConsecutive [a, b, c, d, e]
          · rfl
          · exfalso
            simp [specConsecutive] at hcc
            omega
        cases f <;>
          simp [HandEvaluator.calcCore, specEvalCore,
      HandEvaluator.sortedRankCounts, HandEvaluator.counterItems,
      HandEvaluator.straightInfo, HandEvaluator.straightScan,
      HandEvaluator.HAND_RANKINGS,
      pyUnique, pyUniqueGo, pySort, pyInsert,
      List.count_cons, List.count_nil, hw, hcons, hst,
            show ¬ a = b by omega,
            show ¬ b = a by omega,
            show b < a by omega,
            show b ≤ a by omega,
            show ¬ a < b by omega,
            show ¬ a ≤ b by omega,
            show ¬ a = c by omega,
            show ¬ c = a by omega,
            show c < a by omega,
            show c ≤ a by omega,
            show ¬ a < c by omega,
            show ¬ a ≤ c by omega,
            show ¬ a = d by omega,
            show ¬ d = a by omega,
            show d < a by omega,
            show d ≤ a by omega,
            show ¬ a < d by omega,
            show ¬ a ≤ d by omega,
            show ¬ a = e by omega,
            show ¬ e = a by omega,
            show e < a by omega,
            show e ≤ a by omega,
            show ¬ a < e by omega,
            show ¬ a ≤ e by omega,
            show ¬ b = c by omega,
            show ¬ c = b by omega,
            show c < b by omega,
            show c ≤ b by omega,
            show ¬ b < c by omega,
            show ¬ b ≤ c by omega,
            show ¬ b = d by omega,
            show ¬ d = b by omega,
            show d < b by omega,
            show d ≤ b by omega,
            show ¬ b < d by omega,
            show ¬ b ≤ d by omega,
            show ¬ b = e by omega,
            show ¬ e = b by omega,
            show e < b by omega,
            show e ≤ b by omega,
            show ¬ b < e by omega,
            show ¬ b ≤ e by omega,
            show ¬ c = d by omega,
            show ¬ d = c by omega,
            show d < c by omega,
            show d ≤ c by omega,
            show ¬ c < d by omega,
            show ¬ c ≤ d by omega,
            show ¬ c = e by omega,
            show ¬ e = c by omega,
            show e < c by omega,
            show e ≤ c by omega,
            show ¬ c < e by omega,
            show ¬ c ≤ e by omega,
            show ¬ d = e by omega,
            show ¬ e = d by omega,
            show e < d by omega,
            show e ≤ d by omega,
            show ¬ d < e by omega,
            show ¬ d ≤ e by omega]

/-- C2: five-card classification follows standard poker rules.  The two
named hands evaluate as specified (A♠K♠Q♠J♠T♠ → Royal Flush with kickers
[14,13,12,11,10]; 5♦4♦3♦2♦A♦ → wheel Straight Flush with kickers
[5,4,3,2,1]); the wheel is found by the separate {14,5,4,3,2} set check
(the general consecutive scan alone returns nothing on wheel ranks); and
for every descending 5-card rank list that a real hand can produce (at
most four of a rank; a flush forces five distinct ranks), the evaluator
core agrees with the spec-side classifier `specEvalCore` built from the
spec's category order and per-category kicker rules. -/
theorem c2_five_card_categories :
    (HandEvaluator.calculate_hand_details
        (sortByRankDesc [⟨"A", "♠"⟩, ⟨"K", "♠"⟩, ⟨"Q", "♠"⟩, ⟨"J", "♠"⟩, ⟨"T", "♠"⟩]) =
      ("ROYAL_FLUSH", 10, [14, 13, 12, 11, 10])) ∧
    (HandEvaluator.calculate_hand_details
        (sortByRankDesc [⟨"5", "♦"⟩, ⟨"4", "♦"⟩, ⟨"3", "♦"⟩, ⟨"2", "♦"⟩, ⟨"A", "♦"⟩]) =
      ("STRAIGHT_FLUSH", 9, [5, 4, 3, 2, 1])) ∧
    (HandEvaluator.straightScan
        (pySort (fun a b => b ≤ a) (pyUnique [14, 5, 4, 3, 2])) = none ∧
      HandEvaluator.straightInfo [14, 5, 4, 3, 2] = some (5, [5, 4, 3, 2, 1])) ∧
    (∀ (a b c d e : Int) (f : Bool), b ≤ a → c ≤ b → d ≤ c → e ≤ d → a ≠ e →
      (f = true → a ≠ b ∧ b ≠ c ∧ c ≠ d ∧ d ≠ e) →
      HandEvaluator.calcCore [a, b, c, d, e] f = specEvalCore [a, b, c, d, e] f) :=
  ⟨by decide, by decide, ⟨by decide, by decide⟩,
   fun a b c d e f hba hcb hdc hed hae hflush =>
     calcCore_eq_spec a b c d e f hba hcb hdc hed hae hflush⟩

/-- Witness for C2's universally quantified conjunct at the wheel ranks
with a flush: the code core and the spec classifier agree on
[14, 5, 4, 3, 2] with the flush flag set. -/
theorem c2_five_card_categories_witness :
    ((5 : Int) ≤ 14 ∧ (4 : Int) ≤ 5 ∧ (3 : Int) ≤ 4 ∧ (2 : Int) ≤ 3 ∧
      (14 : Int) ≠ 2) ∧
    HandEvaluator.calcCore [14, 5, 4, 3, 2] true =
      specEvalCore [14, 5, 4, 3, 2] true ∧
    HandEvaluator.calcCore [14, 5, 4, 3, 2] true =
      ("STRAIGHT_FLUSH", 9, [5, 4, 3, 2, 1]) :=
  ⟨by decide,
   c2_five_card_categories.2.2.2 14 5 4 3 2 true (by decide) (by decide) (by decide)
     (by decide) (by decide) (fun _ => by decide),
   by decide⟩
